import Mathlib

/-!
# A verification development for `postmap.go` (azaky/staticmap)

The file embeds the translation layer of `postmap.go` in Lean: the wire
envelope (`postMapEnvelope`), its marker, path and overlay translators and the
assembler `toGenerateMapConfig`.

Conventions of the embedding.

* A Go `string` is its sequence of bytes (`GoString`); literals of the source
  are written with `lit`.
* A Go `float64` is its IEEE-754 binary64 bit pattern (`float64`).
* A Go slice is `Slice α`: `none` is the `nil` slice, `some l` a non-nil slice
  with elements `l`.  A slice that is only ranged over is a `List`.
* A Go function returning `(T, error)` returns a pair whose second component
  is `none` for a `nil` error.  The body of a loop that may leave the function
  with `return nil, err` is a function to `Except`, and the loop itself passes
  the slice built so far along.
* The collaborators that live outside `postmap.go` (`parseMarkerLocations`,
  `staticMap.ParseColorString`, `s2.LatLngFromDegrees`, the constants
  `mapMaxX` and `mapMaxY`) are the fields of `Deps`.
-/

namespace Staticmap

/-! ## Strings -/

/-- One byte of a Go string. -/
abbrev Byte := Fin 256

/-- A Go `string`: an immutable sequence of bytes. -/
abbrev GoString := List Byte

/-- The bytes of an ASCII string literal of the source. -/
def lit (s : String) : GoString :=
  s.data.map fun c => Fin.ofNat c.toNat

/-- Go `strings.HasPrefix s pre`. -/
def startsWith : GoString → GoString → Bool
  | _, [] => true
  | [], _ :: _ => false
  | c :: s, p :: ps => c == p && startsWith s ps

/-- Go `strings.Contains s sub`: `sub` occurs in `s` at some offset. -/
def Contains : GoString → GoString → Bool
  | [], sub => startsWith [] sub
  | c :: s, sub => startsWith (c :: s) sub || Contains s sub

/-- Go `strings.Join elems sep`. -/
def Join : List GoString → GoString → GoString
  | [], _ => []
  | [a], _ => a
  | a :: b :: rest, sep => a ++ sep ++ Join (b :: rest) sep

/-- The first pair of a replacer, in argument order, whose old string starts
the remaining input. -/
def lookupPair (pairs : List (GoString × GoString)) (s : GoString) :
    Option (GoString × GoString) :=
  pairs.find? fun p => startsWith s p.1

/-- Go `strings.NewReplacer(pairs...).Replace` for non-empty old strings: one
left-to-right pass, matches do not overlap, old strings are compared in
argument order.  The first argument counts the input bytes still covered by
the match in progress. -/
def replaceFrom (pairs : List (GoString × GoString)) : Nat → GoString → GoString
  | _, [] => []
  | skip + 1, _ :: s => replaceFrom pairs skip s
  | 0, c :: s =>
    match lookupPair pairs (c :: s) with
    | some p => p.2 ++ replaceFrom pairs (p.1.length - 1) s
    | none => c :: replaceFrom pairs 0 s

/-- Go `strings.NewReplacer(pairs...).Replace(s)`. -/
def Replace (pairs : List (GoString × GoString)) (s : GoString) : GoString :=
  replaceFrom pairs 0 s

/-! ## Floating point numbers and the verb `%f` -/

/-- A Go `float64`: sign bit, 11-bit biased exponent, 52-bit fraction. -/
structure float64 where
  sign : Bool
  expo : Fin 2048
  frac : Fin 4503599627370496
deriving DecidableEq

namespace float64

/-- The value is NaN. -/
def isNaN (x : float64) : Bool := x.expo.val == 2047 && x.frac.val != 0

/-- The value is +Inf or -Inf. -/
def isInf (x : float64) : Bool := x.expo.val == 2047 && x.frac.val == 0

/-- The value is a finite number. -/
def isFinite (x : float64) : Bool := x.expo.val != 2047

/-- Go `x == 0`: positive or negative zero. -/
def isZero (x : float64) : Bool := x.expo.val == 0 && x.frac.val == 0

/-- The integer significand of a finite value. -/
def mant (x : float64) : Nat :=
  if x.expo.val = 0 then x.frac.val else 4503599627370496 + x.frac.val

/-- The exponent field of a finite value, with subnormals at 1: the absolute
value is `mant * 2 ^ (expField - 1075)`. -/
def expField (x : float64) : Nat :=
  if x.expo.val = 0 then 1 else x.expo.val

end float64

/-- The quotient `n / d` rounded to the nearest integer, ties to even. -/
def roundHalfEven (n d : Nat) : Nat :=
  if 2 * (n % d) < d then n / d
  else if d < 2 * (n % d) then n / d + 1
  else if (n / d) % 2 = 0 then n / d
  else n / d + 1

/-- The ASCII digit of `d % 10`. -/
def digitByte (d : Nat) : Byte := Fin.ofNat (48 + d % 10)

/-- The decimal digits of `n`, most significant first, in front of `acc`. -/
def decDigitsAux : Nat → Nat → GoString → GoString
  | 0, _, acc => acc
  | fuel + 1, n, acc =>
    if n / 10 = 0 then digitByte n :: acc
    else decDigitsAux fuel (n / 10) (digitByte n :: acc)

/-- The decimal numeral of `n` without leading zeros (`"0"` for zero). -/
def decDigits (n : Nat) : GoString := decDigitsAux (n + 1) n []

/-- The last `k` decimal digits of `n`, zero padded. -/
def fixedDigits : Nat → Nat → GoString
  | 0, _ => []
  | k + 1, n => fixedDigits k (n / 10) ++ [digitByte n]

/-- The number `|x| * 10 ^ 6` of a finite `x` rounded to an integer, as
`strconv` does for the format `f` with precision 6: exact decimal expansion,
round half to even. -/
def scaled6 (x : float64) : Nat :=
  roundHalfEven (x.mant * 10 ^ 6 * 2 ^ (x.expField - 1075)) (2 ^ (1075 - x.expField))

/-- Go `fmt.Sprintf("%f", x)`. -/
def fmtF (x : float64) : GoString :=
  if x.expo.val = 2047 then
    if x.frac.val ≠ 0 then lit "NaN"
    else if x.sign then lit "-Inf"
    else lit "+Inf"
  else
    (if x.sign then lit "-" else []) ++ decDigits (scaled6 x / 10 ^ 6) ++ lit "."
      ++ fixedDigits 6 (scaled6 x % 10 ^ 6)

/-! ## The product of two floating point numbers -/

/-- The number of binary digits of `n`, for `n` below `2 ^ 128`. -/
def bitLenAux : Nat → Nat → Nat
  | 0, _ => 0
  | fuel + 1, n => if n = 0 then 0 else bitLenAux fuel (n / 2) + 1

/-- The number of binary digits of the product of two significands. -/
def bitLen (n : Nat) : Nat := bitLenAux 128 n

/-- The float64 with sign `sign`, rounded significand `m` at most `2 ^ 53` and
exponent field `ef`: a significand of `2 ^ 53` moves to the next exponent, an
exponent field of 2047 or more overflows to infinity, a significand below
`2 ^ 52` is subnormal. -/
def float64.pack (sign : Bool) (m ef : Nat) : float64 :=
  if m = 9007199254740992 then
    if 2047 ≤ ef + 1 then ⟨sign, 2047, 0⟩ else ⟨sign, Fin.ofNat (ef + 1), 0⟩
  else if 2047 ≤ ef then ⟨sign, 2047, 0⟩
  else if m < 4503599627370496 then ⟨sign, 0, Fin.ofNat m⟩
  else ⟨sign, Fin.ofNat ef, Fin.ofNat (m - 4503599627370496)⟩

/-- Go `x * y` on float64: the exact product rounded to the nearest float64,
ties to even.  A NaN operand is returned quieted, and infinity times zero is
the default NaN, as on amd64. -/
def float64.mul (x y : float64) : float64 :=
  if x.isNaN then ⟨x.sign, 2047, Fin.ofNat (x.frac.val ||| 2251799813685248)⟩
  else if y.isNaN then ⟨y.sign, 2047, Fin.ofNat (y.frac.val ||| 2251799813685248)⟩
  else if x.isInf || y.isInf then
    if x.isZero || y.isZero then ⟨true, 2047, 2251799813685248⟩
    else ⟨xor x.sign y.sign, 2047, 0⟩
  else if x.mant * y.mant = 0 then ⟨xor x.sign y.sign, 0, 0⟩
  else if 1129 ≤ x.expField + y.expField + bitLen (x.mant * y.mant) then
    float64.pack (xor x.sign y.sign)
      (if 53 ≤ bitLen (x.mant * y.mant) then
        roundHalfEven (x.mant * y.mant) (2 ^ (bitLen (x.mant * y.mant) - 53))
      else x.mant * y.mant * 2 ^ (53 - bitLen (x.mant * y.mant)))
      (x.expField + y.expField + bitLen (x.mant * y.mant) - 1128)
  else
    float64.pack (xor x.sign y.sign)
      (roundHalfEven (x.mant * y.mant) (2 ^ (1076 - (x.expField + y.expField)))) 1

/-- The constant `s1.Degree`: the float64 nearest to `π / 180`,
`0.017453292519943295`. -/
def s1Degree : float64 := ⟨false, 1017, 526969440738617⟩

/-! ## SHA-256 and the verb `%x` -/

namespace SHA256

/-- The round constants. -/
def K : List Nat :=
  [
    1116352408, 1899447441, 3049323471, 3921009573, 961987163, 1508970993,
    2453635748, 2870763221, 3624381080, 310598401, 607225278, 1426881987,
    1925078388, 2162078206, 2614888103, 3248222580, 3835390401, 4022224774,
    264347078, 604807628, 770255983, 1249150122, 1555081692, 1996064986,
    2554220882, 2821834349, 2952996808, 3210313671, 3336571891, 3584528711,
    113926993, 338241895, 666307205, 773529912, 1294757372, 1396182291,
    1695183700, 1986661051, 2177026350, 2456956037, 2730485921, 2820302411,
    3259730800, 3345764771, 3516065817, 3600352804, 4094571909, 275423344,
    430227734, 506948616, 659060556, 883997877, 958139571, 1322822218,
    1537002063, 1747873779, 1955562222, 2024104815, 2227730452, 2361852424,
    2428436474, 2756734187, 3204031479, 3329325298
  ]

/-- Rotation of a 32-bit word to the right. -/
def rotr (x n : Nat) : Nat := (x >>> n ||| x <<< (32 - n)) % 4294967296

/-- The function `Σ0` of the standard. -/
def bsig0 (a : Nat) : Nat := rotr a 2 ^^^ rotr a 13 ^^^ rotr a 22

/-- The function `Σ1` of the standard. -/
def bsig1 (e : Nat) : Nat := rotr e 6 ^^^ rotr e 11 ^^^ rotr e 25

/-- The function `σ0` of the standard. -/
def ssig0 (x : Nat) : Nat := rotr x 7 ^^^ rotr x 18 ^^^ x >>> 3

/-- The function `σ1` of the standard. -/
def ssig1 (x : Nat) : Nat := rotr x 17 ^^^ rotr x 19 ^^^ x >>> 10

/-- The choice function. -/
def ch (e f g : Nat) : Nat := (e &&& f) ^^^ ((e ^^^ 4294967295) &&& g)

/-- The majority function. -/
def maj (a b c : Nat) : Nat := (a &&& b) ^^^ (a &&& c) ^^^ (b &&& c)

/-- The eight working variables, each a 32-bit word. -/
structure State where
  a : Nat
  b : Nat
  c : Nat
  d : Nat
  e : Nat
  f : Nat
  g : Nat
  h : Nat
deriving DecidableEq

/-- The initial hash value. -/
def H0 : State :=
  ⟨1779033703, 3144134277, 1013904242, 2773480762,
    1359893119, 2600822924, 528734635, 1541459225⟩

/-- One round with constant `k` and schedule word `w`. -/
def step (s : State) (k w : Nat) : State :=
  let t1 := (s.h + bsig1 s.e + ch s.e s.f s.g + k + w) % 4294967296
  let t2 := (bsig0 s.a + maj s.a s.b s.c) % 4294967296
  ⟨(t1 + t2) % 4294967296, s.a, s.b, s.c, (s.d + t1) % 4294967296, s.e, s.f, s.g⟩

/-- The schedule word that follows a window of sixteen words. -/
def nextWord (win : List Nat) : Nat :=
  (ssig1 (win.getD 14 0) + win.getD 9 0 + ssig0 (win.getD 1 0) + win.getD 0 0) % 4294967296

/-- The rounds for the constants `ks`, over a sliding window of the schedule. -/
def rounds : List Nat → State → List Nat → State
  | [], s, _ => s
  | _ :: _, s, [] => s
  | k :: ks, s, w :: win => rounds ks (step s k w) (win ++ [nextWord (w :: win)])

/-- The big-endian 32-bit words of a byte sequence. -/
def beWords : List Nat → List Nat
  | b0 :: b1 :: b2 :: b3 :: rest =>
    (b0 * 16777216 + b1 * 65536 + b2 * 256 + b3) :: beWords rest
  | _ => []

/-- Compression of one 64-byte block into the state. -/
def compress (s : State) (block : List Nat) : State :=
  let t := rounds K s (beWords block)
  ⟨(s.a + t.a) % 4294967296, (s.b + t.b) % 4294967296, (s.c + t.c) % 4294967296,
    (s.d + t.d) % 4294967296, (s.e + t.e) % 4294967296, (s.f + t.f) % 4294967296,
    (s.g + t.g) % 4294967296, (s.h + t.h) % 4294967296⟩

/-- Compression of the first `n` blocks of a padded message. -/
def blocks : Nat → State → List Nat → State
  | 0, s, _ => s
  | n + 1, s, bs => blocks n (compress s (bs.take 64)) (bs.drop 64)

/-- The big-endian bytes of the low `8 * k` bits of `n`. -/
def beBytes : Nat → Nat → List Nat
  | 0, _ => []
  | k + 1, n => beBytes k (n / 256) ++ [n % 256]

/-- The padded message: a one bit, zero bits up to 56 modulo 64 bytes, and
the bit length in 64 bits. -/
def pad (msg : List Nat) : List Nat :=
  msg ++ [128] ++ List.replicate ((119 - msg.length % 64) % 64) 0
    ++ beBytes 8 (msg.length * 8 % 18446744073709551616)

/-- The final state of the hash of `msg`. -/
def finalState (msg : List Nat) : State :=
  blocks ((pad msg).length / 64) H0 (pad msg)

/-- The four big-endian bytes of a word. -/
def wordBytes (w : Nat) : List Byte :=
  [Fin.ofNat (w / 16777216), Fin.ofNat (w / 65536), Fin.ofNat (w / 256), Fin.ofNat w]

/-- Go `sha256.Sum256`: the 32 bytes of the digest. -/
def Sum256 (data : GoString) : List Byte :=
  let s := finalState (data.map fun b => b.val)
  wordBytes s.a ++ wordBytes s.b ++ wordBytes s.c ++ wordBytes s.d
    ++ wordBytes s.e ++ wordBytes s.f ++ wordBytes s.g ++ wordBytes s.h

end SHA256

/-- The lower-case hexadecimal digit of `n % 16`. -/
def hexDigit (n : Nat) : Byte :=
  if n % 16 < 10 then Fin.ofNat (48 + n % 16) else Fin.ofNat (87 + n % 16)

/-- Go `fmt.Sprintf("%x", bs)` for a byte array: two lower-case hexadecimal
digits per byte. -/
def fmtX : List Byte → GoString
  | [] => []
  | b :: bs => hexDigit (b.val / 16) :: hexDigit b.val :: fmtX bs

/-! ## Errors, slices and the collaborators -/

/-- An argument of a format call. -/
inductive FmtArg (E : Type) where
  | int (i : Int)
  | str (s : GoString)
  | err (e : E)
deriving DecidableEq

/-- A non-nil Go `error` value seen by the caller of this layer: an error of a
collaborator, passed on as it is, or the value built by
`errors.Errorf(format, args...)` of `github.com/pkg/errors`. -/
inductive GoError (E : Type) where
  | ext (e : E)
  | errorf (format : String) (args : List (FmtArg E))
deriving DecidableEq

/-- A Go slice value: `none` is `nil`. -/
abbrev Slice (α : Type) := Option (List α)

/-- A value of the interface `color.Color`: a `color.RGBA` or a value of
another implementation. -/
inductive Color (X : Type) where
  | RGBA (r g b a : Byte)
  | other (x : X)
deriving DecidableEq

/-- A value of `s2.LatLng`: two angles. -/
structure LatLng where
  Lat : float64
  Lng : float64
deriving DecidableEq

/-- The code outside `postmap.go` that the translators call: `M` is the
repository type `marker`, `E` the error values of the collaborators, `X` the
implementations of `color.Color` other than `color.RGBA`. -/
structure Deps (M E X : Type) where
  mapMaxX : Int
  mapMaxY : Int
  parseMarkerLocations : List GoString → Slice M × Option E
  ParseColorString : GoString → Color X × Option E
  LatLngFromDegrees : float64 → float64 → LatLng

/-- Modelled from the spec: the type `staticMap.TileProvider` is declared
outside `postmap.go`; these are the fields `toOverlays` sets (identifier, tile
edge size, URL pattern), every other field keeps its zero value. -/
structure TileProvider where
  Name : GoString
  TileSize : Int
  URLPattern : GoString
deriving DecidableEq

/-- Modelled from the spec: the type `path` is declared outside `postmap.go`;
a path is an ordered polyline with one stroke color and weight. -/
structure path (X : Type) where
  positions : Slice LatLng
  color : Color X
  weight : float64
deriving DecidableEq

/-- Modelled from the spec: the type `generateMapConfig` is declared outside
`postmap.go`; the configuration holds center point, zoom, resolved marker,
path and tile-provider lists, width, height and attribution flag. -/
structure generateMapConfig (M X : Type) where
  Center : LatLng
  Zoom : Int
  Markers : Slice M
  Width : Int
  Height : Int
  DisableAttribution : Bool
  Overlays : Slice TileProvider
  Paths : Slice (path X)
deriving DecidableEq

/-- The composite literal `generateMapConfig{}`: every field zero. -/
def generateMapConfig.zero {M X : Type} : generateMapConfig M X :=
  ⟨⟨⟨false, 0, 0⟩, ⟨false, 0, 0⟩⟩, 0, none, 0, 0, false, none, none⟩

/-! ## The wire types of `postmap.go` -/

/-- Source: `type postMapPoint struct`. -/
structure postMapPoint where
  Lat : float64
  Lon : float64
deriving DecidableEq

/-- Source: `type postMapMarker struct`. -/
structure postMapMarker where
  Size : GoString
  Color : GoString
  Coord : postMapPoint
deriving DecidableEq

/-- Source: `type postMapPath struct`. -/
structure postMapPath where
  Weight : float64
  Color : GoString
  Positions : List postMapPoint
deriving DecidableEq

/-- Source: `type postMapEnvelope struct`. -/
structure postMapEnvelope where
  Center : postMapPoint
  Zoom : Int
  Markers : List postMapMarker
  Width : Int
  Height : Int
  DisableAttribution : Bool
  Overlays : List GoString
  Paths : List postMapPath
deriving DecidableEq

section Translators

variable {M E X : Type}

/-! ## Points -/

/-- Source: `func (p postMapPoint) String() string`, the format `"%f,%f"`. -/
def postMapPoint.String (p : postMapPoint) : GoString :=
  fmtF p.Lat ++ lit "," ++ fmtF p.Lon

/-- Source: `func (p postMapPoint) getPoint() s2.LatLng`. -/
def postMapPoint.getPoint (D : Deps M E X) (p : postMapPoint) : LatLng :=
  D.LatLngFromDegrees p.Lat p.Lon

/-! ## Markers -/

/-- Source: `func (p postMapMarker) String() string`. -/
def postMapMarker.String (p : postMapMarker) : GoString :=
  let parts : List GoString := []
  let parts := if p.Size ≠ [] then parts ++ [lit "size:" ++ p.Size] else parts
  let parts := if p.Color ≠ [] then parts ++ [lit "color:" ++ p.Color] else parts
  let parts := parts ++ [p.Coord.String]
  Join parts (lit "|")

/-- The loop of `toMarkers`: the spec strings appended to `raw`. -/
def rawSpecs : List postMapMarker → List GoString → List GoString
  | [], raw => raw
  | pm :: rest, raw => rawSpecs rest (raw ++ [pm.String])

/-- Source: `func (p postMapMarkers) toMarkers() ([]marker, error)`. -/
def toMarkers (D : Deps M E X) (p : List postMapMarker) :
    Slice M × Option (GoError E) :=
  let r := D.parseMarkerLocations (rawSpecs p [])
  (r.1, r.2.map GoError.ext)

/-! ## Paths -/

/-- The inner loop of `toPaths`: the engine coordinates appended to
`positions`. -/
def appendPoints (D : Deps M E X) : List postMapPoint → List LatLng → List LatLng
  | [], positions => positions
  | point :: rest, positions => appendPoints D rest (positions ++ [point.getPoint D])

/-- The constant `5.0`. -/
def five : float64 := ⟨false, 1025, 1125899906842624⟩

/-- The body of the loop of `toPaths` for one descriptor: the path to append,
or the error the function returns with. -/
def pathOf (D : Deps M E X) (p : postMapPath) : Except (GoError E) (path X) := do
  let positions := appendPoints D p.Positions []
  let mut pt : path X := ⟨some positions, Color.RGBA 255 0 0 255, five⟩
  if p.Color ≠ [] then
    let r := D.ParseColorString p.Color
    pt := { pt with color := r.1 }
    if let some err := r.2 then
      throw (GoError.errorf "bad color name %q: %w" [FmtArg.str p.Color, FmtArg.err err])
  if !p.Weight.isZero then
    pt := { pt with weight := p.Weight }
  return pt

/-- The outer loop of `toPaths` with the paths collected so far. -/
def toPathsLoop (D : Deps M E X) : List postMapPath → List (path X) →
    Slice (path X) × Option (GoError E)
  | [], result => (some result, none)
  | p :: ps, result =>
    match pathOf D p with
    | Except.error err => (none, some err)
    | Except.ok pt => toPathsLoop D ps (result ++ [pt])

/-- Source: `func (ps postMapPaths) toPaths() ([]path, error)`. -/
def toPaths (D : Deps M E X) (ps : List postMapPath) :
    Slice (path X) × Option (GoError E) :=
  toPathsLoop D ps []

/-! ## Overlays -/

/-- The three placeholders, in the order the source checks them. -/
def placeholders : List GoString := [lit "\x7b0\x7d", lit "\x7b1\x7d", lit "\x7b2\x7d"]

/-- The pairs of the replacer of `toOverlays`. -/
def rewritePairs : List (GoString × GoString) :=
  [(lit "\x7b0\x7d", lit "%[2]d"), (lit "\x7b1\x7d", lit "%[3]d"),
    (lit "\x7b2\x7d", lit "%[4]d")]

/-- The inner loop of `toOverlays`: the first of `vs` that `pat` does not
contain. -/
def firstMissing (pat : GoString) : List GoString → Option GoString
  | [] => none
  | v :: vs => if !Contains pat v then some v else firstMissing pat vs

/-- The body of the loop of `toOverlays` for one pattern: the tile provider
to append, or the error the function returns with. -/
def overlayOf (pat : GoString) : Except (GoError E) TileProvider :=
  match firstMissing pat placeholders with
  | some v =>
    Except.error
      (GoError.errorf "placeholder %q not found in pattern %q" [FmtArg.str v, FmtArg.str pat])
  | none =>
    let pat := Replace rewritePairs pat
    Except.ok ⟨fmtX (SHA256.Sum256 pat), 256, pat⟩

/-- The loop of `toOverlays` with the providers collected so far. -/
def toOverlaysLoop : List GoString → List TileProvider →
    Slice TileProvider × Option (GoError E)
  | [], result => (some result, none)
  | pat :: rest, result =>
    match overlayOf (E := E) pat with
    | Except.error err => (none, some err)
    | Except.ok tp => toOverlaysLoop rest (result ++ [tp])

/-- Source: `func (p postMapOverlay) toOverlays() ([]*staticMap.TileProvider, error)`. -/
def toOverlays (p : List GoString) : Slice TileProvider × Option (GoError E) :=
  toOverlaysLoop p []

/-! ## The envelope -/

/-- The error of the size check. -/
def boundsError (D : Deps M E X) : GoError E :=
  GoError.errorf "map size exceeds allowed bounds of %dx%d"
    [FmtArg.int D.mapMaxX, FmtArg.int D.mapMaxY]

/-- Source: `func (p postMapEnvelope) toGenerateMapConfig() (generateMapConfig, error)`. -/
def toGenerateMapConfig (D : Deps M E X) (p : postMapEnvelope) :
    generateMapConfig M X × Option (GoError E) :=
  let result : generateMapConfig M X :=
    ⟨p.Center.getPoint D, p.Zoom, none, p.Width, p.Height, p.DisableAttribution, none, none⟩
  if p.Width > D.mapMaxX ∨ p.Height > D.mapMaxY then
    (generateMapConfig.zero, some (boundsError D))
  else
    match toMarkers D p.Markers with
    | (_, some err) => (generateMapConfig.zero, some err)
    | (markers, none) =>
      let result : generateMapConfig M X := { result with Markers := markers }
      match toOverlays p.Overlays with
      | (_, some err) => (generateMapConfig.zero, some err)
      | (overlays, none) =>
        let result : generateMapConfig M X := { result with Overlays := overlays }
        match toPaths D p.Paths with
        | (_, some err) => (generateMapConfig.zero, some err)
        | (paths, none) => ({ result with Paths := paths }, none)

end Translators

/-! ## A sample instance of the collaborators

The instance below is used to run the translators on concrete envelopes.  Its
marker parser keeps the spec strings as markers and rejects a spec that starts
with `size:bad`; its color parser knows the names `red` and `blue`; its
coordinate conversion keeps the two numbers. -/

/-- The marker parser of the sample instance. -/
def sampleParseMarkers (specs : List GoString) : Slice GoString × Option GoString :=
  if specs.any fun s => startsWith s (lit "size:bad") then
    (none, some (lit "invalid marker size"))
  else (some specs, none)

/-- The color parser of the sample instance. -/
def sampleParseColor (c : GoString) : Color Unit × Option GoString :=
  if c = lit "red" then (Color.RGBA 255 0 0 255, none)
  else if c = lit "blue" then (Color.RGBA 0 0 255 255, none)
  else (Color.RGBA 0 0 0 0, some (lit "cannot parse color string"))

/-- The sample instance of the collaborators, with bounds 1024 x 1024. -/
def sampleDeps : Deps GoString GoString Unit :=
  ⟨1024, 1024, sampleParseMarkers, sampleParseColor, fun lat lng => ⟨lat, lng⟩⟩

/-- Go `s2.LatLngFromDegrees(lat, lng)`: each angle in degrees times
`s1.Degree`. -/
def s2LatLngFromDegrees (lat lng : float64) : LatLng :=
  ⟨float64.mul lat s1Degree, float64.mul lng s1Degree⟩

/-- The sample instance with the coordinate conversion of the library `s2`. -/
def radianDeps : Deps GoString GoString Unit :=
  ⟨1024, 1024, sampleParseMarkers, sampleParseColor, s2LatLngFromDegrees⟩

/-- The float64 `1.0`. -/
def f1 : float64 := ⟨false, 1023, 0⟩

/-- The float64 `2.0`. -/
def f2 : float64 := ⟨false, 1024, 0⟩

/-- The float64 `45.0`. -/
def f45 : float64 := ⟨false, 1028, 1829587348619264⟩

/-- The float64 `-122.0`. -/
def fm122 : float64 := ⟨true, 1029, 4081387162304512⟩

/-- An overlay pattern with the three placeholders. -/
def goodPattern : GoString := lit "http://x/\x7b0\x7d/\x7b1\x7d/\x7b2\x7d.png"

/-- An overlay pattern without the placeholder of the zoom level. -/
def patternWithout0 : GoString := lit "http://x/\x7b1\x7d/\x7b2\x7d.png"

/-- A marker the sample parser rejects. -/
def badMarker : postMapMarker := ⟨lit "bad", [], ⟨f1, f2⟩⟩

/-- A marker the sample parser accepts. -/
def goodMarker : postMapMarker := ⟨lit "mid", lit "0xff0000", ⟨f45, fm122⟩⟩

/-- A path whose color the sample parser rejects. -/
def badPath : postMapPath := ⟨⟨false, 0, 0⟩, lit "not-a-color", [⟨f1, f2⟩]⟩

/-- A path with a color and a weight. -/
def bluePath : postMapPath := ⟨f2, lit "blue", [⟨f1, f2⟩, ⟨f45, fm122⟩]⟩

/-- A path without color and weight. -/
def plainPath : postMapPath := ⟨⟨false, 0, 0⟩, [], []⟩

/-- A path of weight `-2.0` without color. -/
def negativePath : postMapPath := ⟨⟨true, 1024, 0⟩, [], [⟨f45, fm122⟩]⟩

/-- A path of weight `-0.0` with a color. -/
def redPath : postMapPath := ⟨⟨true, 0, 0⟩, lit "red", []⟩

/-- An overlay pattern with the placeholder of the column alone. -/
def patternOnly1 : GoString := lit "http://x/\x7b1\x7d.png"

/-- An overlay pattern that holds the text `%[2]d` next to its placeholders. -/
def literalSlotPattern : GoString := lit "%[2]d/\x7b0\x7d/\x7b1\x7d/\x7b2\x7d"

/-- An overlay pattern with the placeholder of the zoom level twice. -/
def doubledPattern : GoString := lit "\x7b0\x7d/\x7b0\x7d/\x7b1\x7d/\x7b2\x7d"

/-- A valid envelope of width zero and negative height. -/
def flatEnvelope : postMapEnvelope :=
  ⟨⟨f45, fm122⟩, 10, [goodMarker], 0, -5, true, [goodPattern], [bluePath]⟩

/-- An overlay pattern with a placeholder inside braces. -/
def nestedPattern : GoString := lit "\x7b\x7b0\x7d0\x7d/\x7b1\x7d/\x7b2\x7d"

/-- The float64 next above `1.0`. -/
def f1next : float64 := ⟨false, 1023, 1⟩

/-- An envelope that is too wide and invalid in markers, overlays and paths. -/
def oversizedEnvelope : postMapEnvelope :=
  ⟨⟨f45, fm122⟩, 10, [badMarker], 2000, 300, false, [patternWithout0], [badPath]⟩

/-- A valid envelope. -/
def validEnvelope : postMapEnvelope :=
  ⟨⟨f45, fm122⟩, 10, [goodMarker], 800, 600, true, [goodPattern], [bluePath, plainPath]⟩

/-- An envelope within the bounds that is invalid in markers, overlays and
paths. -/
def allBadEnvelope : postMapEnvelope :=
  ⟨⟨f45, fm122⟩, 10, [badMarker], 800, 600, false, [patternWithout0], [badPath]⟩

/-- An envelope within the bounds with valid markers and invalid overlays and
paths. -/
def overlayBadEnvelope : postMapEnvelope :=
  ⟨⟨f45, fm122⟩, 10, [goodMarker], 800, 600, false, [patternWithout0], [badPath]⟩

/-- An envelope within the bounds in which only a path is invalid. -/
def pathBadEnvelope : postMapEnvelope :=
  ⟨⟨f45, fm122⟩, 10, [goodMarker], 800, 600, false, [goodPattern], [bluePath, badPath]⟩

/-! ## Error values as their callers see them

An error built by `errors.Errorf` of `github.com/pkg/errors` is a
`*fundamental`: its message is `fmt.Sprintf(format, args...)`, and it has no
method `Unwrap` or `Cause`.  The functions below render the formats of
`postmap.go`, which use the verbs `%d`, `%q` and `%w`, each with an operand. -/

/-- What the libraries observe of the values they are handed: of an error of
a collaborator its message, the name of its dynamic type, its value printed
by `%v` without calling its methods and the error it wraps, and
`strconv.Quote`, the rendering of a string by `%q`. -/
structure ErrorView (E : Type) where
  Error : E → GoString
  typeString : E → GoString
  plainValue : E → GoString
  Unwrap : E → Option E
  Quote : GoString → GoString

/-- Go `fmt.Sprintf("%d", i)`. -/
def fmtD (i : Int) : GoString :=
  if i < 0 then lit "-" ++ decDigits i.natAbs else decDigits i.natAbs

/-- One verb of `fmt.Sprintf` with its operand.  The verb `%w` is not a verb
of `Sprintf`: it prints as a bad verb, `%!w(type=value)`. -/
def fmtVerb {E : Type} (V : ErrorView E) : Char → FmtArg E → GoString
  | 'd', FmtArg.int i => fmtD i
  | 'q', FmtArg.str s => V.Quote s
  | 'w', FmtArg.err e => lit "%!w(" ++ V.typeString e ++ lit "=" ++ V.plainValue e ++ lit ")"
  | _, _ => []

/-- Go `fmt.Sprintf(format, args...)` on the characters of the format. -/
def Sprintf {E : Type} (V : ErrorView E) : List Char → List (FmtArg E) → GoString
  | [], _ => []
  | [c], _ => [Fin.ofNat c.toNat]
  | c :: v :: rest, args =>
    if c = '%' then
      match args with
      | a :: more => fmtVerb V v a ++ Sprintf V rest more
      | [] => Sprintf V rest []
    else Fin.ofNat c.toNat :: Sprintf V (v :: rest) args

/-- The method `Error()` of an error value. -/
def GoError.Error {E : Type} (V : ErrorView E) : GoError E → GoString
  | GoError.ext e => V.Error e
  | GoError.errorf format args => Sprintf V format.data args

/-- Go `errors.Unwrap(err)`: the error that `err` wraps, if any. -/
def GoError.Unwrap {E : Type} (V : ErrorView E) : GoError E → Option (GoError E)
  | GoError.ext e => (V.Unwrap e).map GoError.ext
  | GoError.errorf _ _ => none

/-- The rendering `strconv.Quote` of a string of printable ASCII bytes. -/
def quoteBytes : GoString → GoString
  | [] => []
  | b :: bs => (if b = 34 ∨ b = 92 then [92, b] else [b]) ++ quoteBytes bs

/-- The view of the sample instance: its errors are of type
`*errors.errorString`, hold their message and wrap nothing. -/
def sampleView : ErrorView GoString :=
  ⟨fun e => e, fun _ => lit "*errors.errorString", fun e => lit "&\x7b" ++ e ++ lit "\x7d",
    fun _ => none, fun s => lit "\x22" ++ quoteBytes s ++ lit "\x22"⟩

/-! ## Reading a numeral back -/

/-- The byte is an ASCII decimal digit. -/
def isDigit (b : Byte) : Bool := 48 ≤ b.val && b.val ≤ 57

/-- The string is a numeral in fixed-point notation with exactly six
fractional digits: an optional minus sign, one or more digits, a point, six
digits, and nothing else. -/
def isFixed6 (s : GoString) : Bool :=
  let body := if s.head? = some 45 then s.tail else s
  let rest := body.dropWhile isDigit
  !(body.takeWhile isDigit).isEmpty && rest.head? = some 46
    && rest.tail.length = 6 && rest.tail.all isDigit

/-- The natural number written by the digits of `s`, other bytes skipped: for
a fixed-point numeral with six fractional digits, its absolute value in
millionths. -/
def digitsValue (s : GoString) : Nat :=
  (s.filter isDigit).foldl (fun a b => 10 * a + (b.val - 48)) 0

/-- The number `q` is an integer nearest to `|x| * 10 ^ 6` for a finite `x`,
whose absolute value is `mant * 2 ^ (expField - 1075)`. -/
def isNearestMillionths (x : float64) (q : Nat) : Prop :=
  2 * (x.mant * 10 ^ 6 * 2 ^ (x.expField - 1075)) ≤ (2 * q + 1) * 2 ^ (1075 - x.expField)
    ∧ 2 * q * 2 ^ (1075 - x.expField)
      ≤ 2 * (x.mant * 10 ^ 6 * 2 ^ (x.expField - 1075)) + 2 ^ (1075 - x.expField)

/-- The byte is one of `0`-`9`, `a`-`f`. -/
def isLowerHex (b : Byte) : Bool := isDigit b || (97 ≤ b.val && b.val ≤ 102)

/-- The string `sub` is a literal substring of `s`. -/
def Occurs (sub s : GoString) : Prop := ∃ a b, s = a ++ sub ++ b

/-- The float64 NaN with the lowest fraction bit set. -/
def fNaN : float64 := ⟨false, 2047, 1⟩

/-! # Theorems -/

section Assembly

variable {M E X : Type}

/-- An error of `toMarkers` is an error of the marker parser. -/
theorem toMarkers_error (D : Deps M E X) (ms : List postMapMarker) (e : GoError E)
    (h : (toMarkers D ms).2 = some e) : ∃ x, e = GoError.ext x := by
  unfold toMarkers at h
  cases hp : (D.parseMarkerLocations (rawSpecs ms [])).2 with
  | none => simp [hp] at h
  | some x => exact ⟨x, by simpa [hp] using h.symm⟩

/-- An error of `overlayOf` is the placeholder error. -/
theorem overlayOf_error (pat : GoString) (e : GoError E)
    (h : overlayOf pat = Except.error e) :
    ∃ v, e = GoError.errorf "placeholder %q not found in pattern %q"
      [FmtArg.str v, FmtArg.str pat] := by
  unfold overlayOf at h
  cases hm : firstMissing pat placeholders with
  | none => simp [hm] at h
  | some v => exact ⟨v, by simpa [hm] using h.symm⟩

/-- An error of the overlay loop is a placeholder error. -/
theorem toOverlaysLoop_error (ps : List GoString) (acc : List TileProvider) (e : GoError E)
    (h : (toOverlaysLoop ps acc).2 = some e) :
    ∃ v pat, e = GoError.errorf "placeholder %q not found in pattern %q"
      [FmtArg.str v, FmtArg.str pat] := by
  induction ps generalizing acc with
  | nil => simp [toOverlaysLoop] at h
  | cons pat rest ih =>
    unfold toOverlaysLoop at h
    cases ho : overlayOf (E := E) pat with
    | error err =>
      obtain ⟨v, hv⟩ := overlayOf_error pat err ho
      refine ⟨v, pat, ?_⟩
      simp only [ho] at h
      rw [← hv]; exact (Option.some.inj h).symm
    | ok tp =>
      simp only [ho] at h
      exact ih _ h

/-- The body of the loop of `toPaths`, branch by branch. -/
theorem pathOf_eq (D : Deps M E X) (p : postMapPath) :
    pathOf D p =
      if p.Color ≠ [] then
        match D.ParseColorString p.Color with
        | (_, some err) =>
          Except.error
            (GoError.errorf "bad color name %q: %w" [FmtArg.str p.Color, FmtArg.err err])
        | (c, none) =>
          if !p.Weight.isZero then
            Except.ok ⟨some (appendPoints D p.Positions []), c, p.Weight⟩
          else Except.ok ⟨some (appendPoints D p.Positions []), c, five⟩
      else
        if !p.Weight.isZero then
          Except.ok ⟨some (appendPoints D p.Positions []), Color.RGBA 255 0 0 255, p.Weight⟩
        else Except.ok ⟨some (appendPoints D p.Positions []), Color.RGBA 255 0 0 255, five⟩ := by
  unfold pathOf
  by_cases hc : p.Color = []
  · cases hw : p.Weight.isZero <;> simp [hc, hw] <;> rfl
  · cases hpc : D.ParseColorString p.Color with
    | mk c oe =>
      cases oe with
      | some x => simp [hc, hpc] ; rfl
      | none => cases hw : p.Weight.isZero <;> simp [hc, hw, hpc] <;> rfl

/-- An error of `pathOf` is the color error. -/
theorem pathOf_error (D : Deps M E X) (p : postMapPath) (e : GoError E)
    (h : pathOf D p = Except.error e) :
    ∃ x, e = GoError.errorf "bad color name %q: %w" [FmtArg.str p.Color, FmtArg.err x] := by
  rw [pathOf_eq] at h
  by_cases hc : p.Color = []
  · simp only [hc, ne_eq, not_true_eq_false, if_false] at h
    split at h <;> simp at h
  · simp only [ne_eq, hc, not_false_eq_true, if_true] at h
    split at h
    · next x _ => exact ⟨x, (Except.error.inj h).symm⟩
    · split at h <;> simp at h

/-- An error of the path loop is a color error. -/
theorem toPathsLoop_error (D : Deps M E X) (ps : List postMapPath) (acc : List (path X))
    (e : GoError E) (h : (toPathsLoop D ps acc).2 = some e) :
    ∃ c x, e = GoError.errorf "bad color name %q: %w" [FmtArg.str c, FmtArg.err x] := by
  induction ps generalizing acc with
  | nil => simp [toPathsLoop] at h
  | cons p rest ih =>
    unfold toPathsLoop at h
    cases ho : pathOf D p with
    | error err =>
      obtain ⟨x, hx⟩ := pathOf_error D p err ho
      refine ⟨p.Color, x, ?_⟩
      simp only [ho] at h
      rw [← hx]; exact (Option.some.inj h).symm
    | ok tp =>
      simp only [ho] at h
      exact ih _ h

/-- Inside the bounds the assembler continues with the translators. -/
theorem toGenerateMapConfig_inside (D : Deps M E X) (p : postMapEnvelope)
    (hW : p.Width ≤ D.mapMaxX) (hH : p.Height ≤ D.mapMaxY) :
    toGenerateMapConfig D p =
      match toMarkers D p.Markers with
      | (_, some err) => (generateMapConfig.zero, some err)
      | (markers, none) =>
        match toOverlays p.Overlays with
        | (_, some err) => (generateMapConfig.zero, some err)
        | (overlays, none) =>
          match toPaths D p.Paths with
          | (_, some err) => (generateMapConfig.zero, some err)
          | (paths, none) =>
            (⟨p.Center.getPoint D, p.Zoom, markers, p.Width, p.Height, p.DisableAttribution,
              overlays, paths⟩, none) := by
  unfold toGenerateMapConfig
  have h : ¬ (p.Width > D.mapMaxX ∨ p.Height > D.mapMaxY) := by
    rintro (h | h) <;> omega
  simp only [h, if_false]

/-- C1: when the width exceeds `mapMaxX` or the height exceeds `mapMaxY`,
`toGenerateMapConfig` returns the bounds error (the format
`map size exceeds allowed bounds of %dx%d` applied to `mapMaxX` and `mapMaxY`)
whatever the markers, overlays and paths are, and the returned error is none
of the errors the three translators report on the envelope's lists. -/
theorem toGenerateMapConfig_bounds_error (D : Deps M E X) (p : postMapEnvelope)
    (h : p.Width > D.mapMaxX ∨ p.Height > D.mapMaxY) :
    (toGenerateMapConfig D p).2 =
        some (GoError.errorf "map size exceeds allowed bounds of %dx%d"
          [FmtArg.int D.mapMaxX, FmtArg.int D.mapMaxY])
      ∧ (toGenerateMapConfig D p).2 ≠ (toMarkers D p.Markers).2
      ∧ (toGenerateMapConfig D p).2 ≠ (toOverlays p.Overlays).2
      ∧ (toGenerateMapConfig D p).2 ≠ (toPaths D p.Paths).2 := by
  have h1 : toGenerateMapConfig D p = (generateMapConfig.zero, some (boundsError D)) := by
    unfold toGenerateMapConfig
    simp only [h, if_true]
  rw [h1]
  refine ⟨rfl, ?_, ?_, ?_⟩
  · intro hm
    obtain ⟨x, hx⟩ := toMarkers_error D p.Markers _ hm.symm
    simp [boundsError] at hx
  · intro ho
    obtain ⟨v, pat, hx⟩ := toOverlaysLoop_error p.Overlays [] _ ho.symm
    simp [boundsError] at hx
  · intro hp
    obtain ⟨c, x, hx⟩ := toPathsLoop_error D p.Paths [] _ hp.symm
    simp [boundsError] at hx

/-- C1, on an envelope 2000 wide whose marker, overlay pattern and path are
all invalid: the three translators fail on its lists and the assembler
returns the bounds error. -/
theorem toGenerateMapConfig_bounds_error_witness :
    (toMarkers sampleDeps oversizedEnvelope.Markers).2 ≠ none
      ∧ (toOverlays (E := GoString) oversizedEnvelope.Overlays).2 ≠ none
      ∧ (toPaths sampleDeps oversizedEnvelope.Paths).2 ≠ none
      ∧ (toGenerateMapConfig sampleDeps oversizedEnvelope).2 =
        some (GoError.errorf "map size exceeds allowed bounds of %dx%d"
          [FmtArg.int 1024, FmtArg.int 1024]) :=
  ⟨by decide, by decide, by decide,
    (toGenerateMapConfig_bounds_error sampleDeps oversizedEnvelope (Or.inl (by decide))).1⟩

/-- C2: when width and height are within the bounds and the three translators
accept the envelope's lists, `toGenerateMapConfig` succeeds with the engine
coordinate of the center, the envelope's zoom, width, height and attribution
flag, and the lists the translators returned. -/
theorem toGenerateMapConfig_success (D : Deps M E X) (p : postMapEnvelope)
    (hW : p.Width ≤ D.mapMaxX) (hH : p.Height ≤ D.mapMaxY)
    (hm : (toMarkers D p.Markers).2 = none)
    (ho : (toOverlays (E := E) p.Overlays).2 = none)
    (hp : (toPaths D p.Paths).2 = none) :
    toGenerateMapConfig D p =
      (⟨D.LatLngFromDegrees p.Center.Lat p.Center.Lon, p.Zoom, (toMarkers D p.Markers).1,
          p.Width, p.Height, p.DisableAttribution, (toOverlays (E := E) p.Overlays).1,
          (toPaths D p.Paths).1⟩, none) := by
  rw [toGenerateMapConfig_inside D p hW hH]
  cases hm1 : toMarkers D p.Markers with
  | mk ms me =>
    cases ho1 : toOverlays (E := E) p.Overlays with
    | mk os oe =>
      cases hp1 : toPaths D p.Paths with
      | mk ps pe =>
        rw [hm1] at hm; rw [ho1] at ho; rw [hp1] at hp
        simp only at hm ho hp
        subst hm; subst ho; subst hp
        rfl

set_option maxRecDepth 8000 in
/-- C2, on a valid envelope of 800 x 600. -/
theorem toGenerateMapConfig_success_witness :
    toGenerateMapConfig sampleDeps validEnvelope =
      (⟨⟨f45, fm122⟩, 10, some [lit "size:mid|color:0xff0000|45.000000,-122.000000"],
          800, 600, true,
          some [⟨lit "3c4b3d498c55ca3bd2ae020ed33d35123260e914f3561ee42fd81e887097dcc8", 256,
            lit "http://x/%[2]d/%[3]d/%[4]d.png"⟩],
          some [⟨some [⟨f1, f2⟩, ⟨f45, fm122⟩], Color.RGBA 0 0 255 255, f2⟩,
            ⟨some [], Color.RGBA 255 0 0 255, five⟩]⟩, none) :=
  (toGenerateMapConfig_success sampleDeps validEnvelope (by decide) (by decide) (by decide)
    (by decide) (by decide)).trans (by decide)

/-- C3: within the size bounds the assembler reports the first failure in the
order markers, overlays, paths and returns that translator's error as it is:
a marker error wins over overlay and path errors, an overlay error is returned
when the markers succeed, a path error when markers and overlays succeed, and
a returned error that is the path translator's comes with successful markers
and overlays. -/
theorem toGenerateMapConfig_error_order (D : Deps M E X) (p : postMapEnvelope)
    (hW : p.Width ≤ D.mapMaxX) (hH : p.Height ≤ D.mapMaxY) :
    (∀ e, (toMarkers D p.Markers).2 = some e →
        (toGenerateMapConfig D p).2 = some e)
      ∧ ((toMarkers D p.Markers).2 = none → ∀ e, (toOverlays p.Overlays).2 = some e →
        (toGenerateMapConfig D p).2 = some e)
      ∧ ((toMarkers D p.Markers).2 = none → (toOverlays (E := E) p.Overlays).2 = none →
        ∀ e, (toPaths D p.Paths).2 = some e → (toGenerateMapConfig D p).2 = some e)
      ∧ (∀ e, (toGenerateMapConfig D p).2 = some e → (toPaths D p.Paths).2 = some e →
        (toMarkers D p.Markers).2 = none ∧ (toOverlays (E := E) p.Overlays).2 = none) := by
  rw [toGenerateMapConfig_inside D p hW hH]
  cases hm1 : toMarkers D p.Markers with
  | mk ms me =>
    cases ho1 : toOverlays (E := E) p.Overlays with
    | mk os oe =>
      cases hp1 : toPaths D p.Paths with
      | mk ps pe =>
        have hme := toMarkers_error D p.Markers
        have hoe := toOverlaysLoop_error (E := E) p.Overlays []
        have hpe := toPathsLoop_error D p.Paths []
        rw [hm1] at hme
        rw [show toOverlaysLoop (E := E) p.Overlays [] = (os, oe) from ho1] at hoe
        rw [show toPathsLoop D p.Paths [] = (ps, pe) from hp1] at hpe
        simp only at hme hoe hpe
        cases me with
        | some em =>
          refine ⟨?_, ?_, ?_, ?_⟩
          · intro e he; exact he
          · intro h; exact absurd h (by simp)
          · intro h; exact absurd h (by simp)
          · intro e he hpp
            simp only [Option.some.injEq] at he hpp
            obtain ⟨x, hx⟩ := hme em rfl
            obtain ⟨c, y, hy⟩ := hpe e (by rw [hpp])
            rw [← he, hx] at hy
            simp at hy
        | none =>
          cases oe with
          | some eo =>
            refine ⟨?_, ?_, ?_, ?_⟩
            · intro e he; exact absurd he (by simp)
            · intro _ e he; exact he
            · intro _ h; exact absurd h (by simp)
            · intro e he hpp
              simp only [Option.some.injEq] at he hpp
              obtain ⟨v, pat, hx⟩ := hoe eo rfl
              obtain ⟨c, y, hy⟩ := hpe e (by rw [hpp])
              rw [← he, hx] at hy
              simp at hy
          | none =>
            cases pe with
            | some ep =>
              refine ⟨?_, ?_, ?_, ?_⟩
              · intro e he; exact absurd he (by simp)
              · intro _ e he; exact absurd he (by simp)
              · intro _ _ e he; exact he
              · intro _ _ _; exact ⟨rfl, rfl⟩
            | none =>
              refine ⟨?_, ?_, ?_, ?_⟩
              · intro e he; exact absurd he (by simp)
              · intro _ e he; exact absurd he (by simp)
              · intro _ _ e he; exact absurd he (by simp)
              · intro _ _ _; exact ⟨rfl, rfl⟩

/-- C3, on an envelope within the bounds whose marker, overlay pattern and
path are all invalid: the overlay and path translators fail as well, and the
marker parser's error is the one returned. -/
theorem toGenerateMapConfig_error_order_witness :
    (toOverlays (E := GoString) allBadEnvelope.Overlays).2 ≠ none
      ∧ (toPaths sampleDeps allBadEnvelope.Paths).2 ≠ none
      ∧ (toGenerateMapConfig sampleDeps allBadEnvelope).2 =
        some (GoError.ext (lit "invalid marker size")) :=
  ⟨by decide, by decide,
    (toGenerateMapConfig_error_order sampleDeps allBadEnvelope (by decide) (by decide)).1
      _ (by decide)⟩

end Assembly

/-! ## Numerals -/

theorem digitByte_val (d : Nat) : (digitByte d).val = 48 + d % 10 := by
  simp only [digitByte, Fin.ofNat, Nat.succ_eq_add_one]
  omega

theorem digitByte_isDigit (d : Nat) : isDigit (digitByte d) = true := by
  simp only [isDigit, digitByte_val, Bool.and_eq_true, decide_eq_true_eq]
  omega

theorem decDigitsAux_digits (fuel n : Nat) (acc : GoString)
    (h : ∀ b ∈ acc, isDigit b = true) : ∀ b ∈ decDigitsAux fuel n acc, isDigit b = true := by
  induction fuel generalizing n acc with
  | zero => simpa [decDigitsAux] using h
  | succ k ih =>
    have h2 : ∀ b ∈ digitByte n :: acc, isDigit b = true := by
      intro b hb
      rcases List.mem_cons.1 hb with rfl | hb
      · exact digitByte_isDigit n
      · exact h b hb
    unfold decDigitsAux
    split
    · exact h2
    · exact ih _ _ h2

theorem decDigitsAux_ne_nil (fuel n : Nat) (acc : GoString) :
    decDigitsAux (fuel + 1) n acc ≠ [] := by
  induction fuel generalizing n acc with
  | zero => unfold decDigitsAux; split <;> simp [decDigitsAux]
  | succ k ih =>
    unfold decDigitsAux
    split
    · simp
    · exact ih _ _

theorem decDigits_digits (n : Nat) : ∀ b ∈ decDigits n, isDigit b = true :=
  decDigitsAux_digits _ _ _ (by simp)

theorem decDigits_ne_nil (n : Nat) : decDigits n ≠ [] := decDigitsAux_ne_nil _ _ _

theorem fixedDigits_digits (k n : Nat) : ∀ b ∈ fixedDigits k n, isDigit b = true := by
  induction k generalizing n with
  | zero => simp [fixedDigits]
  | succ k ih =>
    intro b hb
    simp only [fixedDigits, List.mem_append, List.mem_singleton] at hb
    rcases hb with hb | rfl
    · exact ih _ b hb
    · exact digitByte_isDigit n

theorem fixedDigits_length (k n : Nat) : (fixedDigits k n).length = k := by
  induction k generalizing n with
  | zero => simp [fixedDigits]
  | succ k ih => simp [fixedDigits, ih]

/-- The value of a digit string read from the left with a start value. -/
theorem foldl_digits (l : GoString) (a : Nat) :
    l.foldl (fun a b => 10 * a + (b.val - 48)) a
      = a * 10 ^ l.length + l.foldl (fun a b => 10 * a + (b.val - 48)) 0 := by
  induction l generalizing a with
  | nil => simp
  | cons b l ih =>
    simp only [List.foldl_cons, List.length_cons]
    rw [ih (10 * a + (b.val - 48)), ih (10 * 0 + (b.val - 48))]
    ring

theorem filter_isDigit_of_all (l : GoString) (h : ∀ b ∈ l, isDigit b = true) :
    l.filter isDigit = l := List.filter_eq_self.2 h

theorem digitsValue_append (a b : GoString) :
    digitsValue (a ++ b) = digitsValue a * 10 ^ (b.filter isDigit).length + digitsValue b := by
  simp only [digitsValue, List.filter_append, List.foldl_append]
  rw [foldl_digits]

theorem digitsValue_digitByte_cons (n : Nat) (acc : GoString)
    (h : ∀ b ∈ acc, isDigit b = true) :
    digitsValue (digitByte n :: acc) = n % 10 * 10 ^ acc.length + digitsValue acc := by
  have := digitsValue_append [digitByte n] acc
  simp only [List.singleton_append] at this
  rw [this, filter_isDigit_of_all acc h]
  simp [digitsValue, digitByte_isDigit, digitByte_val]

theorem digitsValue_decDigitsAux (fuel n : Nat) (acc : GoString) (hf : n < fuel)
    (h : ∀ b ∈ acc, isDigit b = true) :
    digitsValue (decDigitsAux fuel n acc) = n * 10 ^ acc.length + digitsValue acc := by
  induction fuel generalizing n acc with
  | zero => omega
  | succ k ih =>
    have h2 : ∀ b ∈ digitByte n :: acc, isDigit b = true := by
      intro b hb
      rcases List.mem_cons.1 hb with rfl | hb
      · exact digitByte_isDigit n
      · exact h b hb
    unfold decDigitsAux
    split
    · next h0 =>
      rw [digitsValue_digitByte_cons n acc h]
      have : n % 10 = n := by omega
      rw [this]
    · next h0 =>
      rw [ih (n / 10) _ (by omega) h2, digitsValue_digitByte_cons n acc h]
      simp only [List.length_cons, pow_succ]
      have hn : n * 10 ^ acc.length = (10 * (n / 10) + n % 10) * 10 ^ acc.length := by
        rw [Nat.div_add_mod]
      rw [hn]
      ring

theorem digitsValue_decDigits (n : Nat) : digitsValue (decDigits n) = n := by
  have := digitsValue_decDigitsAux (n + 1) n [] (by omega) (by simp)
  simpa [decDigits, digitsValue] using this

theorem digitsValue_fixedDigits (k n : Nat) : digitsValue (fixedDigits k n) = n % 10 ^ k := by
  induction k generalizing n with
  | zero => simp [fixedDigits, digitsValue, Nat.mod_one]
  | succ k ih =>
    simp only [fixedDigits]
    rw [digitsValue_append, ih]
    simp only [digitsValue, List.filter_cons, digitByte_isDigit, if_true, List.filter_nil,
      List.length_singleton, List.foldl_cons, List.foldl_nil, digitByte_val]
    have h1 : n % 10 ^ (k + 1) = n % 10 + 10 * (n / 10 % 10 ^ k) := by
      rw [pow_succ, mul_comm, Nat.mod_mul]
    omega

/-! ## The verb `%f` on finite numbers -/

theorem roundHalfEven_nearest (n d : Nat) (hd : 0 < d) :
    2 * n ≤ (2 * roundHalfEven n d + 1) * d ∧ 2 * roundHalfEven n d * d ≤ 2 * n + d := by
  have h1 := Nat.div_add_mod n d
  have h2 := Nat.mod_lt n hd
  unfold roundHalfEven
  generalize n / d = q at *
  generalize n % d = r at *
  subst h1
  have hc : q * d = d * q := Nat.mul_comm _ _
  have e1 : ∀ k : Nat, (2 * k + 1) * d = 2 * (d * k) + d := fun k => by ring
  have e2 : ∀ k : Nat, 2 * k * d = 2 * (d * k) := fun k => by ring
  have e3 : d * (q + 1) = d * q + d := by ring
  split
  · rw [e1, e2]; constructor <;> omega
  · split
    · rw [e1, e2, e3]; constructor <;> omega
    · split
      · rw [e1, e2]; constructor <;> omega
      · rw [e1, e2, e3]; constructor <;> omega

theorem lit_minus : lit "-" = [45] := by decide

theorem lit_dot : lit "." = [46] := by decide

theorem lit_comma : lit "," = [44] := by decide

theorem isDigit_dot : isDigit 46 = false := by decide

theorem not_isDigit_minus : ¬ isDigit 45 = true := by decide

theorem takeWhile_digits_append (ip rest : GoString) (h : ∀ b ∈ ip, isDigit b = true) :
    (ip ++ 46 :: rest).takeWhile isDigit = ip := by
  induction ip with
  | nil => simp [List.takeWhile_cons, isDigit_dot]
  | cons b ip ih =>
    have hb : isDigit b = true := h b (List.mem_cons_self _ _)
    simp [List.takeWhile_cons, hb, ih (fun c hc => h c (List.mem_cons_of_mem _ hc))]

theorem dropWhile_digits_append (ip rest : GoString) (h : ∀ b ∈ ip, isDigit b = true) :
    (ip ++ 46 :: rest).dropWhile isDigit = 46 :: rest := by
  induction ip with
  | nil => simp [List.dropWhile_cons, isDigit_dot]
  | cons b ip ih =>
    have hb : isDigit b = true := h b (List.mem_cons_self _ _)
    simp [List.dropWhile_cons, hb, ih (fun c hc => h c (List.mem_cons_of_mem _ hc))]

theorem isFixed6_of_parts (sgn : Bool) (ip fr : GoString) (hne : ip ≠ [])
    (hip : ∀ b ∈ ip, isDigit b = true) (hlen : fr.length = 6)
    (hfr : ∀ b ∈ fr, isDigit b = true) :
    isFixed6 ((if sgn then lit "-" else []) ++ ip ++ lit "." ++ fr) = true := by
  have hbody : (if ((if sgn then lit "-" else []) ++ ip ++ lit "." ++ fr).head? = some 45
      then ((if sgn then lit "-" else []) ++ ip ++ lit "." ++ fr).tail
      else (if sgn then lit "-" else []) ++ ip ++ lit "." ++ fr) = ip ++ 46 :: fr := by
    cases sgn with
    | true => simp [lit_minus, lit_dot]
    | false =>
      cases ip with
      | nil => exact absurd rfl hne
      | cons b ip =>
        have hb : isDigit b = true := hip b (List.mem_cons_self _ _)
        have hb45 : b ≠ 45 := by
          intro h45
          rw [h45] at hb
          exact not_isDigit_minus hb
        simp [lit_dot, hb45]
  unfold isFixed6
  simp only [hbody]
  rw [takeWhile_digits_append ip fr hip, dropWhile_digits_append ip fr hip]
  cases ip with
  | nil => exact absurd rfl hne
  | cons b ip =>
    simp only [List.isEmpty_cons, Bool.not_false, List.head?_cons, List.tail_cons, hlen,
      decide_True, Bool.and_self, Bool.true_and, List.all_eq_true]
    exact hfr

/-- The shape of `%f` on a finite number. -/
theorem fmtF_finite (x : float64) (h : x.isFinite = true) :
    fmtF x = (if x.sign then lit "-" else []) ++ decDigits (scaled6 x / 10 ^ 6) ++ lit "."
      ++ fixedDigits 6 (scaled6 x % 10 ^ 6) := by
  have h1 : ¬ x.expo.val = 2047 := by
    simpa [float64.isFinite] using h
  simp only [fmtF, h1, if_false]

theorem fmtF_isFixed6 (x : float64) (h : x.isFinite = true) : isFixed6 (fmtF x) = true := by
  rw [fmtF_finite x h]
  exact isFixed6_of_parts _ _ _ (decDigits_ne_nil _) (decDigits_digits _)
    (fixedDigits_length _ _) (fixedDigits_digits _ _)

theorem fmtF_value (x : float64) (h : x.isFinite = true) :
    digitsValue (fmtF x) = scaled6 x := by
  rw [fmtF_finite x h, digitsValue_append, digitsValue_append, digitsValue_append,
    digitsValue_fixedDigits, digitsValue_decDigits,
    filter_isDigit_of_all _ (fixedDigits_digits _ _), fixedDigits_length]
  have h1 : digitsValue (if x.sign then lit "-" else []) = 0 := by
    cases x.sign <;> decide
  have h2 : digitsValue (lit ".") = 0 := by decide
  have h3 : ((lit ".").filter isDigit).length = 0 := by decide
  rw [h1, h2, h3]
  have h4 : scaled6 x % 10 ^ 6 % 10 ^ 6 = scaled6 x % 10 ^ 6 := Nat.mod_mod _ _
  have h5 := Nat.div_add_mod (scaled6 x) (10 ^ 6)
  rw [h4]
  simp only [Nat.zero_mul, Nat.zero_add, pow_zero, Nat.mul_one, Nat.add_zero]
  omega

theorem fmtF_sign (x : float64) (h : x.isFinite = true) :
    ((fmtF x).head? = some 45 ↔ x.sign = true) := by
  rw [fmtF_finite x h]
  cases hs : x.sign with
  | true => simp [lit_minus]
  | false =>
    have hne := decDigits_ne_nil (scaled6 x / 10 ^ 6)
    have hd := decDigits_digits (scaled6 x / 10 ^ 6)
    cases hdd : decDigits (scaled6 x / 10 ^ 6) with
    | nil => exact absurd hdd hne
    | cons b ip =>
      have hb : isDigit b = true := hd b (by rw [hdd]; exact List.mem_cons_self _ _)
      have hb45 : b ≠ 45 := by
        intro h45
        rw [h45] at hb
        exact not_isDigit_minus hb
      simp [hb45]

theorem scaled6_nearest (x : float64) : isNearestMillionths x (scaled6 x) :=
  roundHalfEven_nearest _ _ (Nat.pos_pow_of_pos _ (by decide))

/-! ## Marker and point strings -/

/-- C4: the spec string of a marker is the segment `size:` with the size and
a separator `|` when the size is non-empty, then the segment `color:` with the
color and a separator when the color is non-empty, then the coordinate string;
it is the `|`-join of exactly the segments present, and the marker with size
`mid`, color `0xff0000` and coordinate (45, -122) gives
`size:mid|color:0xff0000|45.000000,-122.000000`. -/
theorem postMapMarker_String_segments :
    (∀ m : postMapMarker,
        m.String = (if m.Size = [] then [] else lit "size:" ++ m.Size ++ lit "|")
            ++ (if m.Color = [] then [] else lit "color:" ++ m.Color ++ lit "|")
            ++ m.Coord.String
          ∧ m.String = Join ((if m.Size = [] then [] else [lit "size:" ++ m.Size])
            ++ (if m.Color = [] then [] else [lit "color:" ++ m.Color])
            ++ [m.Coord.String]) (lit "|"))
      ∧ (⟨lit "mid", lit "0xff0000", ⟨f45, fm122⟩⟩ : postMapMarker).String
        = lit "size:mid|color:0xff0000|45.000000,-122.000000" := by
  refine ⟨fun m => ?_, by decide⟩
  by_cases hs : m.Size = [] <;> by_cases hc : m.Color = [] <;>
    simp [postMapMarker.String, Join, hs, hc]

/-- C5 as stated fails: the point with latitude NaN and longitude 2 has the
string `NaN,2.000000`, which is not a pair of fixed-point numerals with six
fractional digits around a comma. -/
theorem postMapPoint_String_nan :
    (⟨fNaN, f2⟩ : postMapPoint).String = lit "NaN,2.000000"
      ∧ ¬ ∃ a b, (⟨fNaN, f2⟩ : postMapPoint).String = a ++ lit "," ++ b
          ∧ isFixed6 a = true ∧ isFixed6 b = true := by
  have h : (⟨fNaN, f2⟩ : postMapPoint).String = lit "NaN,2.000000" := by decide
  refine ⟨h, ?_⟩
  rintro ⟨a, b, hab, ha, -⟩
  rw [h] at hab
  cases a with
  | nil => exact absurd ha (by decide)
  | cons c a =>
    have h78 : (lit "NaN,2.000000").head? = some 78 := by decide
    have hc : c = 78 := by
      have := congrArg List.head? hab
      rw [h78] at this
      simpa using this.symm
    subst hc
    have hnd : isDigit 78 = false := by decide
    have h45 : ¬ (78 : Byte) = 45 := by decide
    simp [isFixed6, List.takeWhile_cons, hnd, h45] at ha

/-- C5, amended: for a point with finite latitude and longitude the string is
the numeral of the latitude, one comma and the numeral of the longitude, where
each numeral has the fixed-point shape with exactly six fractional digits,
carries a minus sign exactly for a set sign bit, and reads in millionths as an
integer nearest to the absolute value times `10 ^ 6`; a marker at that point
with empty size and color serializes to this string alone. -/
theorem postMapPoint_String_finite (p : postMapPoint) (hlat : p.Lat.isFinite = true)
    (hlon : p.Lon.isFinite = true) :
    p.String = fmtF p.Lat ++ lit "," ++ fmtF p.Lon
      ∧ isFixed6 (fmtF p.Lat) = true ∧ isFixed6 (fmtF p.Lon) = true
      ∧ ((fmtF p.Lat).head? = some 45 ↔ p.Lat.sign = true)
      ∧ ((fmtF p.Lon).head? = some 45 ↔ p.Lon.sign = true)
      ∧ isNearestMillionths p.Lat (digitsValue (fmtF p.Lat))
      ∧ isNearestMillionths p.Lon (digitsValue (fmtF p.Lon))
      ∧ (∀ m : postMapMarker, m.Size = [] → m.Color = [] → m.Coord = p →
          m.String = p.String) := by
  refine ⟨rfl, fmtF_isFixed6 _ hlat, fmtF_isFixed6 _ hlon, fmtF_sign _ hlat, fmtF_sign _ hlon,
    ?_, ?_, ?_⟩
  · rw [fmtF_value _ hlat]; exact scaled6_nearest _
  · rw [fmtF_value _ hlon]; exact scaled6_nearest _
  · intro m hs hc hp
    simp [postMapMarker.String, Join, hs, hc, hp]

/-- C5, amended, at the point (1, 2): the string is `1.000000,2.000000`, also
for the marker without size and color. -/
theorem postMapPoint_String_finite_witness :
    (⟨f1, f2⟩ : postMapPoint).String = lit "1.000000,2.000000"
      ∧ (⟨[], [], ⟨f1, f2⟩⟩ : postMapMarker).String = lit "1.000000,2.000000"
      ∧ isFixed6 (lit "1.000000") = true ∧ isFixed6 (lit "2.000000") = true :=
  have h := postMapPoint_String_finite ⟨f1, f2⟩ (by decide) (by decide)
  ⟨h.1.trans (by decide), (h.2.2.2.2.2.2.2 ⟨[], [], ⟨f1, f2⟩⟩ rfl rfl rfl).trans (by decide),
    h.2.1, h.2.2.1⟩

/-! ## Paths -/

section Paths

variable {M E X : Type}

theorem appendPoints_eq (D : Deps M E X) (pts : List postMapPoint) (acc : List LatLng) :
    appendPoints D pts acc = acc ++ pts.map fun q => D.LatLngFromDegrees q.Lat q.Lon := by
  induction pts generalizing acc with
  | nil => simp [appendPoints]
  | cons q pts ih => simp [appendPoints, ih, postMapPoint.getPoint]

/-- What `pathOf` returns when it returns a path. -/
theorem pathOf_ok (D : Deps M E X) (p : postMapPath) (pt : path X)
    (h : pathOf D p = Except.ok pt) :
    pt.positions = some (p.Positions.map fun q => D.LatLngFromDegrees q.Lat q.Lon)
      ∧ pt.color = (if p.Color = [] then Color.RGBA 255 0 0 255
          else (D.ParseColorString p.Color).1)
      ∧ pt.weight = (if p.Weight.isZero = true then five else p.Weight)
      ∧ (p.Color = [] ∨ (D.ParseColorString p.Color).2 = none) := by
  rw [pathOf_eq] at h
  simp only [appendPoints_eq] at h
  by_cases hc : p.Color = []
  · simp only [hc, ne_eq, not_true_eq_false, if_false] at h
    cases hw : p.Weight.isZero <;> simp only [hw] at h <;>
      simp at h <;> subst h <;> simp [hc, hw]
  · simp only [ne_eq, hc, not_false_eq_true, if_true] at h
    cases hpc : D.ParseColorString p.Color with
    | mk c oe =>
      rw [hpc] at h
      cases oe with
      | some x => simp at h
      | none =>
        cases hw : p.Weight.isZero <;> simp only [hw] at h <;>
          simp at h <;> subst h <;> simp [hc, hw]

/-- When `pathOf` returns an error. -/
theorem pathOf_error_iff (D : Deps M E X) (p : postMapPath) (e : GoError E) :
    pathOf D p = Except.error e ↔
      p.Color ≠ [] ∧ ∃ x, (D.ParseColorString p.Color).2 = some x
        ∧ e = GoError.errorf "bad color name %q: %w" [FmtArg.str p.Color, FmtArg.err x] := by
  rw [pathOf_eq]
  by_cases hc : p.Color = []
  · simp only [hc, ne_eq, not_true_eq_false, if_false, false_and, iff_false]
    split <;> simp
  · simp only [ne_eq, hc, not_false_eq_true, if_true, true_and]
    cases hpc : D.ParseColorString p.Color with
    | mk c oe =>
      cases oe with
      | some x =>
        simp only [Except.error.injEq, Option.some.injEq, exists_eq_left']
        exact eq_comm
      | none =>
        simp only [false_and, exists_false, iff_false]
        split <;> simp

/-- A descriptor is translated or rejected. -/
theorem pathOf_ok_or_error (D : Deps M E X) (p : postMapPath) :
    (∃ pt, pathOf D p = Except.ok pt) ∨ ∃ e, pathOf D p = Except.error e := by
  cases pathOf D p with
  | error e => exact Or.inr ⟨e, rfl⟩
  | ok pt => exact Or.inl ⟨pt, rfl⟩

/-- The two outcomes of the loop of `toPaths`. -/
theorem toPathsLoop_cases (D : Deps M E X) (ps : List postMapPath) (acc : List (path X)) :
    (∃ l, toPathsLoop D ps acc = (some (acc ++ l), none)
        ∧ List.Forall₂ (fun p pt => pathOf D p = Except.ok pt) ps l)
      ∨ ∃ pre p post e, ps = pre ++ p :: post
        ∧ (∀ q ∈ pre, ∃ pt, pathOf D q = Except.ok pt)
        ∧ pathOf D p = Except.error e
        ∧ toPathsLoop D ps acc = (none, some e) := by
  induction ps generalizing acc with
  | nil => exact Or.inl ⟨[], by simp [toPathsLoop]⟩
  | cons p ps ih =>
    cases hp : pathOf D p with
    | error e =>
      exact Or.inr ⟨[], p, ps, e, rfl, by simp, hp, by simp [toPathsLoop, hp]⟩
    | ok pt =>
      rcases ih (acc ++ [pt]) with ⟨l, hl, hf⟩ | ⟨pre, q, post, e, hps, hpre, hq, hl⟩
      · refine Or.inl ⟨pt :: l, ?_, List.Forall₂.cons hp hf⟩
        simp only [toPathsLoop, hp, hl]
        simp
      · refine Or.inr ⟨p :: pre, q, post, e, by simp [hps], ?_, hq, ?_⟩
        · intro r hr
          rcases List.mem_cons.1 hr with rfl | hr
          · exact ⟨pt, hp⟩
          · exact hpre r hr
        · simp only [toPathsLoop, hp, hl]

/-- A list without a nil error is translated descriptor by descriptor. -/
theorem toPaths_of_no_error (D : Deps M E X) (ps : List postMapPath)
    (h : (toPaths D ps).2 = none) :
    ∃ l, toPaths D ps = (some l, none)
      ∧ List.Forall₂ (fun p pt => pathOf D p = Except.ok pt) ps l := by
  rcases toPathsLoop_cases D ps [] with ⟨l, hl, hf⟩ | ⟨pre, p, post, e, -, -, -, hl⟩
  · exact ⟨l, by simpa [toPaths] using hl, hf⟩
  · rw [toPaths, hl] at h
    exact absurd h (by simp)

/-- The loop stops at the first descriptor that `pathOf` rejects. -/
theorem toPathsLoop_first_error (D : Deps M E X) (pre : List postMapPath) (p : postMapPath)
    (post : List postMapPath) (acc : List (path X)) (e : GoError E)
    (hpre : ∀ q ∈ pre, ∃ pt, pathOf D q = Except.ok pt) (hp : pathOf D p = Except.error e) :
    toPathsLoop D (pre ++ p :: post) acc = (none, some e) := by
  induction pre generalizing acc with
  | nil => simp [toPathsLoop, hp]
  | cons q pre ih =>
    obtain ⟨pt, hq⟩ := hpre q (List.mem_cons_self _ _)
    simp only [List.cons_append, toPathsLoop, hq]
    exact ih _ fun r hr => hpre r (List.mem_cons_of_mem _ hr)

/-- A descriptor without color, or with a color the parser accepts, is
translated. -/
theorem pathOf_ok_of_color (D : Deps M E X) (q : postMapPath)
    (h : q.Color = [] ∨ (D.ParseColorString q.Color).2 = none) :
    ∃ pt, pathOf D q = Except.ok pt := by
  rcases pathOf_ok_or_error D q with hok | ⟨e, he⟩
  · exact hok
  · obtain ⟨hc, x, hx, -⟩ := (pathOf_error_iff D q e).1 he
    rcases h with h | h
    · exact absurd h hc
    · rw [h] at hx
      exact absurd hx (by simp)

/-- C6: in the list `toPaths` returns without error, the i-th path has the
weight of the i-th descriptor when that weight is not zero (negative weights
and NaN included) and 5.0 when it is zero, and, independently, the color the
color parser returns for the descriptor's color name when the name is
non-empty and RGBA(255,0,0,255) when it is empty. -/
theorem toPaths_weight_color (D : Deps M E X) (ps : List postMapPath)
    (h : (toPaths D ps).2 = none) :
    ∃ paths, (toPaths D ps).1 = some paths ∧ paths.length = ps.length
      ∧ ∀ (i : Nat) (h₁ : i < ps.length) (h₂ : i < paths.length),
        (paths.get ⟨i, h₂⟩).weight
            = (if (ps.get ⟨i, h₁⟩).Weight.isZero = true then ⟨false, 1025, 1125899906842624⟩
              else (ps.get ⟨i, h₁⟩).Weight)
          ∧ (paths.get ⟨i, h₂⟩).color
            = (if (ps.get ⟨i, h₁⟩).Color = [] then Color.RGBA 255 0 0 255
              else (D.ParseColorString (ps.get ⟨i, h₁⟩).Color).1) := by
  obtain ⟨l, hl, hf⟩ := toPaths_of_no_error D ps h
  refine ⟨l, by rw [hl], hf.length_eq.symm, fun i h₁ h₂ => ?_⟩
  have := pathOf_ok D _ _ (hf.get h₁ h₂)
  exact ⟨this.2.2.1, this.2.1⟩

/-- C6, on a path with color and weight, a path with neither, a path with a
negative weight and a path with weight `-0.0`. -/
theorem toPaths_weight_color_witness :
    (∃ paths, (toPaths sampleDeps [bluePath, plainPath, negativePath, redPath]).1 = some paths
      ∧ paths.length = 4
      ∧ ∀ (i : Nat) (h₁ : i < 4) (h₂ : i < paths.length),
        (paths.get ⟨i, h₂⟩).weight
            = (if ([bluePath, plainPath, negativePath, redPath].get ⟨i, h₁⟩).Weight.isZero = true
              then ⟨false, 1025, 1125899906842624⟩
              else ([bluePath, plainPath, negativePath, redPath].get ⟨i, h₁⟩).Weight)
          ∧ (paths.get ⟨i, h₂⟩).color
            = (if ([bluePath, plainPath, negativePath, redPath].get ⟨i, h₁⟩).Color = []
              then Color.RGBA 255 0 0 255
              else (sampleDeps.ParseColorString
                ([bluePath, plainPath, negativePath, redPath].get ⟨i, h₁⟩).Color).1))
      ∧ (toPaths sampleDeps [bluePath, plainPath, negativePath, redPath]).1
        = some [⟨some [⟨f1, f2⟩, ⟨f45, fm122⟩], Color.RGBA 0 0 255 255, f2⟩,
            ⟨some [], Color.RGBA 255 0 0 255, five⟩,
            ⟨some [⟨f45, fm122⟩], Color.RGBA 255 0 0 255, ⟨true, 1024, 0⟩⟩,
            ⟨some [], Color.RGBA 255 0 0 255, five⟩] :=
  ⟨toPaths_weight_color sampleDeps [bluePath, plainPath, negativePath, redPath] (by decide),
    by decide⟩

/-- C7: `toPaths` fails exactly when some descriptor has a non-empty color
name that the color parser rejects; it then returns the nil list, and the
error is the color error of the first such descriptor in input order; an
envelope within the size bounds with valid markers and overlays then fails
as a whole with that error. -/
theorem toPaths_fails_iff (D : Deps M E X) (ps : List postMapPath) :
    ((toPaths D ps).2 ≠ none ↔
        ∃ p ∈ ps, p.Color ≠ [] ∧ (D.ParseColorString p.Color).2 ≠ none)
      ∧ ((toPaths D ps).2 ≠ none → (toPaths D ps).1 = none)
      ∧ (∀ pre p post x, ps = pre ++ p :: post →
          (∀ q ∈ pre, q.Color = [] ∨ (D.ParseColorString q.Color).2 = none) →
          p.Color ≠ [] → (D.ParseColorString p.Color).2 = some x →
          (toPaths D ps).2 = some (GoError.errorf "bad color name %q: %w"
            [FmtArg.str p.Color, FmtArg.err x]))
      ∧ (∀ env : postMapEnvelope, env.Paths = ps →
          env.Width ≤ D.mapMaxX → env.Height ≤ D.mapMaxY →
          (toMarkers D env.Markers).2 = none → (toOverlays (E := E) env.Overlays).2 = none →
          (toPaths D ps).2 ≠ none →
          toGenerateMapConfig D env = (generateMapConfig.zero, (toPaths D ps).2)) := by
  refine ⟨⟨?_, ?_⟩, ?_, ?_, ?_⟩
  · intro hne
    rcases toPathsLoop_cases D ps [] with ⟨l, hl, -⟩ | ⟨pre, p, post, e, hps, -, hp, -⟩
    · rw [toPaths, hl] at hne
      exact absurd rfl hne
    · obtain ⟨hc, x, hx, -⟩ := (pathOf_error_iff D p e).1 hp
      exact ⟨p, by simp [hps], hc, by simp [hx]⟩
  · rintro ⟨p, hmem, hc, hx⟩ hnone
    obtain ⟨l, -, hf⟩ := toPaths_of_no_error D ps hnone
    obtain ⟨i, hi⟩ := List.mem_iff_get.1 hmem
    subst hi
    have hlen := hf.length_eq
    have := pathOf_ok D _ _ (hf.get i.2 (by rw [← hlen]; exact i.2))
    rcases this.2.2.2 with h | h
    · exact hc h
    · exact hx h
  · intro hne
    rcases toPathsLoop_cases D ps [] with ⟨l, hl, -⟩ | ⟨pre, p, post, e, -, -, -, hl⟩
    · rw [toPaths, hl] at hne
      exact absurd rfl hne
    · rw [toPaths, hl]
  · intro pre p post x hps hpre hc hx
    have he := (pathOf_error_iff D p _).2 ⟨hc, x, hx, rfl⟩
    rw [hps, toPaths,
      toPathsLoop_first_error D pre p post [] _ (fun q hq => pathOf_ok_of_color D q (hpre q hq)) he]
  · intro env henv hW hH hm ho hne
    rw [toGenerateMapConfig_inside D env hW hH, henv]
    cases hm1 : toMarkers D env.Markers with
    | mk ms me =>
      cases ho1 : toOverlays (E := E) env.Overlays with
      | mk os oe =>
        cases hp1 : toPaths D ps with
        | mk pl pe =>
          rw [hm1] at hm; rw [ho1] at ho; rw [hp1] at hne
          simp only at hm ho hne
          subst hm; subst ho
          cases pe with
          | none => exact absurd rfl hne
          | some e => rfl

/-- C7, on a valid path followed by a path with the color `not-a-color`: the
translator returns nil and the color error of the second path, and the
envelope that is valid apart from that path fails with the same error. -/
theorem toPaths_fails_iff_witness :
    toPaths sampleDeps [bluePath, badPath]
        = (none, some (GoError.errorf "bad color name %q: %w"
          [FmtArg.str (lit "not-a-color"), FmtArg.err (lit "cannot parse color string")]))
      ∧ toGenerateMapConfig sampleDeps pathBadEnvelope
        = (generateMapConfig.zero, some (GoError.errorf "bad color name %q: %w"
          [FmtArg.str (lit "not-a-color"), FmtArg.err (lit "cannot parse color string")])) :=
  have h := toPaths_fails_iff sampleDeps [bluePath, badPath]
  have h3 := h.2.2.1 [bluePath] badPath [] (lit "cannot parse color string") rfl
    (by decide) (by decide) (by decide)
  have h2 := h.2.1 (by rw [h3]; simp)
  ⟨Prod.ext h2 h3,
    (h.2.2.2 pathBadEnvelope rfl (by decide) (by decide) (by decide) (by decide)
      (by rw [h3]; simp)).trans (by rw [h3]; rfl)⟩

/-- C8: `toPaths` translates the empty list to the empty list without error;
a list it accepts yields one path per descriptor in input order, the i-th
path carrying, in the same order, `s2.LatLngFromDegrees` of latitude and
longitude of each of the i-th descriptor's positions (so the same number of
them, and none for a descriptor without positions). -/
theorem toPaths_positions (D : Deps M E X) (ps : List postMapPath) :
    toPaths D [] = (some [], none)
      ∧ ((toPaths D ps).2 = none →
        ∃ paths, (toPaths D ps).1 = some paths ∧ paths.length = ps.length
          ∧ ∀ (i : Nat) (h₁ : i < ps.length) (h₂ : i < paths.length),
            (paths.get ⟨i, h₂⟩).positions
                = some ((ps.get ⟨i, h₁⟩).Positions.map
                  fun q => D.LatLngFromDegrees q.Lat q.Lon)
              ∧ (∃ l, (paths.get ⟨i, h₂⟩).positions = some l
                  ∧ l.length = (ps.get ⟨i, h₁⟩).Positions.length
                  ∧ ∀ (j : Nat) (k₁ : j < (ps.get ⟨i, h₁⟩).Positions.length)
                    (k₂ : j < l.length),
                    l.get ⟨j, k₂⟩
                      = D.LatLngFromDegrees ((ps.get ⟨i, h₁⟩).Positions.get ⟨j, k₁⟩).Lat
                        ((ps.get ⟨i, h₁⟩).Positions.get ⟨j, k₁⟩).Lon)
              ∧ ((ps.get ⟨i, h₁⟩).Positions = [] →
                  (paths.get ⟨i, h₂⟩).positions = some [])) := by
  refine ⟨rfl, fun h => ?_⟩
  obtain ⟨l, hl, hf⟩ := toPaths_of_no_error D ps h
  refine ⟨l, by rw [hl], hf.length_eq.symm, fun i h₁ h₂ => ?_⟩
  have h1 := (pathOf_ok D _ _ (hf.get h₁ h₂)).1
  refine ⟨h1, ⟨_, h1, by simp, fun j k₁ k₂ => by simp⟩, fun hnil => ?_⟩
  rw [h1, hnil]
  rfl

set_option maxRecDepth 8000 in
/-- C8, with the conversion of the library `s2`, on a path through (1, 2) and
(45, -122) and a path without positions: the first path runs through
(0.017453292519943295, 0.03490658503988659) and
(0.7853981633974483, -2.129301687433082) in radians, in this order, the
second has no positions. -/
theorem toPaths_positions_witness :
    (∃ paths, (toPaths radianDeps [bluePath, plainPath]).1 = some paths ∧ paths.length = 2
      ∧ ∀ (i : Nat) (h₁ : i < 2) (h₂ : i < paths.length),
        (paths.get ⟨i, h₂⟩).positions
            = some (([bluePath, plainPath].get ⟨i, h₁⟩).Positions.map
              fun q => s2LatLngFromDegrees q.Lat q.Lon)
          ∧ (∃ l, (paths.get ⟨i, h₂⟩).positions = some l
              ∧ l.length = ([bluePath, plainPath].get ⟨i, h₁⟩).Positions.length
              ∧ ∀ (j : Nat) (k₁ : j < ([bluePath, plainPath].get ⟨i, h₁⟩).Positions.length)
                (k₂ : j < l.length),
                l.get ⟨j, k₂⟩
                  = s2LatLngFromDegrees
                    (([bluePath, plainPath].get ⟨i, h₁⟩).Positions.get ⟨j, k₁⟩).Lat
                    (([bluePath, plainPath].get ⟨i, h₁⟩).Positions.get ⟨j, k₁⟩).Lon)
          ∧ (([bluePath, plainPath].get ⟨i, h₁⟩).Positions = [] →
              (paths.get ⟨i, h₂⟩).positions = some []))
      ∧ toPaths radianDeps [bluePath, plainPath]
        = (some [⟨some [⟨⟨false, 1017, 526969440738617⟩, ⟨false, 1018, 526969440738617⟩⟩,
              ⟨⟨false, 1022, 2570638124657944⟩, ⟨true, 1024, 291161515671002⟩⟩],
              Color.RGBA 0 0 255 255, f2⟩,
            ⟨some [], Color.RGBA 255 0 0 255, five⟩], none)
      ∧ toPaths radianDeps [] = (some [], none) :=
  ⟨(toPaths_positions radianDeps [bluePath, plainPath]).2 (by decide), by decide,
    (toPaths_positions radianDeps []).1⟩

end Paths

/-! ## Overlays -/

section Overlays

variable {E : Type}

theorem startsWith_iff (s pre : GoString) : startsWith s pre = true ↔ ∃ b, s = pre ++ b := by
  induction pre generalizing s with
  | nil => simp [startsWith]
  | cons p pre ih =>
    cases s with
    | nil => simp [startsWith]
    | cons c s =>
      simp only [startsWith, Bool.and_eq_true, beq_iff_eq, ih, List.cons_append,
        List.cons.injEq]
      constructor
      · rintro ⟨rfl, b, rfl⟩
        exact ⟨b, rfl, rfl⟩
      · rintro ⟨b, rfl, rfl⟩
        exact ⟨rfl, b, rfl⟩

/-- `strings.Contains` decides the occurrence of a substring. -/
theorem Contains_iff (s sub : GoString) : Contains s sub = true ↔ Occurs sub s := by
  induction s with
  | nil =>
    simp only [Contains, startsWith_iff, Occurs]
    constructor
    · rintro ⟨b, hb⟩
      exact ⟨[], b, by simpa using hb⟩
    · rintro ⟨a, b, hab⟩
      have h1 : a = [] := by
        cases a with
        | nil => rfl
        | cons x a => simp at hab
      subst h1
      exact ⟨b, by simpa using hab⟩
  | cons c s ih =>
    simp only [Contains, Bool.or_eq_true, startsWith_iff, ih, Occurs]
    constructor
    · rintro (⟨b, hb⟩ | ⟨a, b, hab⟩)
      · exact ⟨[], b, by simpa using hb⟩
      · exact ⟨c :: a, b, by simp [hab]⟩
    · rintro ⟨a, b, hab⟩
      cases a with
      | nil => exact Or.inl ⟨b, by simpa using hab⟩
      | cons x a =>
        simp only [List.cons_append, List.cons.injEq] at hab
        exact Or.inr ⟨a, b, by simpa using hab.2⟩

/-- The inner loop of `toOverlays` on the three placeholders. -/
theorem firstMissing_placeholders (pat : GoString) :
    firstMissing pat placeholders =
      if Contains pat (lit "\x7b0\x7d") = false then some (lit "\x7b0\x7d")
      else if Contains pat (lit "\x7b1\x7d") = false then some (lit "\x7b1\x7d")
      else if Contains pat (lit "\x7b2\x7d") = false then some (lit "\x7b2\x7d")
      else none := by
  simp only [firstMissing, placeholders]
  cases Contains pat (lit "\x7b0\x7d") <;> cases Contains pat (lit "\x7b1\x7d") <;>
    cases Contains pat (lit "\x7b2\x7d") <;> simp

theorem not_Occurs_iff (sub s : GoString) : ¬ Occurs sub s ↔ Contains s sub = false := by
  rw [← Contains_iff]
  simp

/-- The pattern has the three placeholders exactly when the inner loop finds
none missing. -/
theorem firstMissing_none_iff (pat : GoString) :
    firstMissing pat placeholders = none ↔
      Occurs (lit "\x7b0\x7d") pat ∧ Occurs (lit "\x7b1\x7d") pat
        ∧ Occurs (lit "\x7b2\x7d") pat := by
  rw [firstMissing_placeholders]
  simp only [← Contains_iff]
  cases Contains pat (lit "\x7b0\x7d") <;> cases Contains pat (lit "\x7b1\x7d") <;>
    cases Contains pat (lit "\x7b2\x7d") <;> simp

/-- What `overlayOf` returns when it returns a provider. -/
theorem overlayOf_ok_iff (pat : GoString) (tp : TileProvider) :
    overlayOf (E := E) pat = Except.ok tp ↔
      firstMissing pat placeholders = none
        ∧ tp = ⟨fmtX (SHA256.Sum256 (Replace rewritePairs pat)), 256,
          Replace rewritePairs pat⟩ := by
  unfold overlayOf
  cases firstMissing pat placeholders with
  | none => simp [eq_comm]
  | some v => simp

/-- When `overlayOf` returns an error. -/
theorem overlayOf_error_iff (pat : GoString) (e : GoError E) :
    overlayOf pat = Except.error e ↔
      ∃ v, firstMissing pat placeholders = some v
        ∧ e = GoError.errorf "placeholder %q not found in pattern %q"
          [FmtArg.str v, FmtArg.str pat] := by
  unfold overlayOf
  cases firstMissing pat placeholders with
  | none => simp
  | some v => simp [eq_comm]

/-- The two outcomes of the loop of `toOverlays`. -/
theorem toOverlaysLoop_cases (ps : List GoString) (acc : List TileProvider) :
    (∃ l, toOverlaysLoop (E := E) ps acc = (some (acc ++ l), none)
        ∧ List.Forall₂ (fun p tp => overlayOf (E := E) p = Except.ok tp) ps l)
      ∨ ∃ pre p post, ∃ e : GoError E, ps = pre ++ p :: post
        ∧ (∀ q ∈ pre, ∃ tp, overlayOf (E := E) q = Except.ok tp)
        ∧ overlayOf p = Except.error e
        ∧ toOverlaysLoop ps acc = (none, some e) := by
  induction ps generalizing acc with
  | nil => exact Or.inl ⟨[], by simp [toOverlaysLoop]⟩
  | cons p ps ih =>
    cases hp : overlayOf (E := E) p with
    | error e =>
      exact Or.inr ⟨[], p, ps, e, rfl, by simp, hp, by simp [toOverlaysLoop, hp]⟩
    | ok tp =>
      rcases ih (acc ++ [tp]) with ⟨l, hl, hf⟩ | ⟨pre, q, post, e, hps, hpre, hq, hl⟩
      · refine Or.inl ⟨tp :: l, ?_, List.Forall₂.cons hp hf⟩
        simp only [toOverlaysLoop, hp, hl]
        simp
      · refine Or.inr ⟨p :: pre, q, post, e, by simp [hps], ?_, hq, ?_⟩
        · intro r hr
          rcases List.mem_cons.1 hr with rfl | hr
          · exact ⟨tp, hp⟩
          · exact hpre r hr
        · simp only [toOverlaysLoop, hp, hl]

/-- A list without a nil error is translated pattern by pattern. -/
theorem toOverlays_of_no_error (ps : List GoString)
    (h : (toOverlays (E := E) ps).2 = none) :
    ∃ l, toOverlays (E := E) ps = (some l, none)
      ∧ List.Forall₂ (fun p tp => overlayOf (E := E) p = Except.ok tp) ps l := by
  rcases toOverlaysLoop_cases (E := E) ps [] with ⟨l, hl, hf⟩ | ⟨pre, p, post, e, -, -, -, hl⟩
  · exact ⟨l, by simpa [toOverlays] using hl, hf⟩
  · rw [toOverlays, hl] at h
    exact absurd h (by simp)

/-- The loop stops at the first pattern that `overlayOf` rejects. -/
theorem toOverlaysLoop_first_error (pre : List GoString) (p : GoString)
    (post : List GoString) (acc : List TileProvider) (e : GoError E)
    (hpre : ∀ q ∈ pre, ∃ tp, overlayOf (E := E) q = Except.ok tp)
    (hp : overlayOf p = Except.error e) :
    toOverlaysLoop (pre ++ p :: post) acc = (none, some e) := by
  induction pre generalizing acc with
  | nil => simp [toOverlaysLoop, hp]
  | cons q pre ih =>
    obtain ⟨tp, hq⟩ := hpre q (List.mem_cons_self _ _)
    simp only [List.cons_append, toOverlaysLoop, hq]
    exact ih _ fun r hr => hpre r (List.mem_cons_of_mem _ hr)

/-! ### The identifier -/

theorem hexDigit_isLowerHex (n : Nat) : isLowerHex (hexDigit n) = true := by
  have h : n % 16 < 16 := Nat.mod_lt _ (by decide)
  unfold hexDigit
  generalize n % 16 = k at h
  interval_cases k <;> decide

theorem fmtX_length (bs : List Byte) : (fmtX bs).length = 2 * bs.length := by
  induction bs with
  | nil => rfl
  | cons b bs ih => simp [fmtX, ih]; omega

theorem fmtX_isLowerHex (bs : List Byte) : ∀ b ∈ fmtX bs, isLowerHex b = true := by
  induction bs with
  | nil => simp [fmtX]
  | cons c bs ih =>
    intro b hb
    simp only [fmtX, List.mem_cons] at hb
    rcases hb with rfl | rfl | hb
    · exact hexDigit_isLowerHex _
    · exact hexDigit_isLowerHex _
    · exact ih b hb

theorem Sum256_length (data : GoString) : (SHA256.Sum256 data).length = 32 := by
  simp [SHA256.Sum256, SHA256.wordBytes]

/-- The model of SHA-256 on the test vector `abc` of the standard. -/
theorem Sum256_abc : fmtX (SHA256.Sum256 (lit "abc")) =
    lit "ba7816bf8f01cfea414140de5dae2223b00361a396177a9cb410ff61f20015ad" := by decide

/-- A pattern with the three placeholders is translated. -/
theorem overlayOf_ok_of_occurs (q : GoString)
    (h : Occurs (lit "\x7b0\x7d") q ∧ Occurs (lit "\x7b1\x7d") q ∧ Occurs (lit "\x7b2\x7d") q) :
    ∃ tp, overlayOf (E := E) q = Except.ok tp :=
  ⟨_, (overlayOf_ok_iff q _).2 ⟨(firstMissing_none_iff q).2 h, rfl⟩⟩

/-- C9: `toOverlays` fails exactly when some pattern lacks one of the
substrings `{0}`, `{1}`, `{2}`; it then returns the nil list, and the error is
the placeholder error for the first such pattern in input order, naming that
pattern and the first placeholder it lacks in the order `{0}`, `{1}`, `{2}`. -/
theorem toOverlays_fails_iff (ps : List GoString) :
    ((toOverlays (E := E) ps).2 ≠ none ↔
        ∃ pat ∈ ps, ¬ Occurs (lit "\x7b0\x7d") pat ∨ ¬ Occurs (lit "\x7b1\x7d") pat
          ∨ ¬ Occurs (lit "\x7b2\x7d") pat)
      ∧ ((toOverlays (E := E) ps).2 ≠ none → (toOverlays (E := E) ps).1 = none)
      ∧ (∀ pre pat post, ps = pre ++ pat :: post →
          (∀ q ∈ pre, Occurs (lit "\x7b0\x7d") q ∧ Occurs (lit "\x7b1\x7d") q
            ∧ Occurs (lit "\x7b2\x7d") q) →
          (¬ Occurs (lit "\x7b0\x7d") pat →
              (toOverlays (E := E) ps).2
                = some (GoError.errorf "placeholder %q not found in pattern %q"
                  [FmtArg.str (lit "\x7b0\x7d"), FmtArg.str pat]))
            ∧ (Occurs (lit "\x7b0\x7d") pat → ¬ Occurs (lit "\x7b1\x7d") pat →
              (toOverlays (E := E) ps).2
                = some (GoError.errorf "placeholder %q not found in pattern %q"
                  [FmtArg.str (lit "\x7b1\x7d"), FmtArg.str pat]))
            ∧ (Occurs (lit "\x7b0\x7d") pat → Occurs (lit "\x7b1\x7d") pat →
              ¬ Occurs (lit "\x7b2\x7d") pat →
              (toOverlays (E := E) ps).2
                = some (GoError.errorf "placeholder %q not found in pattern %q"
                  [FmtArg.str (lit "\x7b2\x7d"), FmtArg.str pat]))) := by
  refine ⟨⟨?_, ?_⟩, ?_, ?_⟩
  · intro hne
    rcases toOverlaysLoop_cases (E := E) ps [] with
      ⟨l, hl, -⟩ | ⟨pre, p, post, e, hps, -, hp, -⟩
    · rw [toOverlays, hl] at hne
      exact absurd rfl hne
    · obtain ⟨v, hv, -⟩ := (overlayOf_error_iff p e).1 hp
      refine ⟨p, by simp [hps], ?_⟩
      by_contra hall
      have h3 : Occurs (lit "\x7b0\x7d") p ∧ Occurs (lit "\x7b1\x7d") p
          ∧ Occurs (lit "\x7b2\x7d") p := by
        refine ⟨?_, ?_, ?_⟩ <;> by_contra hn <;> exact hall (by simp [hn])
      rw [(firstMissing_none_iff p).2 h3] at hv
      exact absurd hv (by simp)
  · rintro ⟨pat, hmem, hlack⟩ hnone
    obtain ⟨l, -, hf⟩ := toOverlays_of_no_error (E := E) ps hnone
    obtain ⟨i, hi⟩ := List.mem_iff_get.1 hmem
    subst hi
    have hlen := hf.length_eq
    have hok := hf.get i.2 (by rw [← hlen]; exact i.2)
    have h3 := (firstMissing_none_iff _).1 ((overlayOf_ok_iff _ _).1 hok).1
    rcases hlack with h | h | h
    · exact h h3.1
    · exact h h3.2.1
    · exact h h3.2.2
  · intro hne
    rcases toOverlaysLoop_cases (E := E) ps [] with ⟨l, hl, -⟩ | ⟨pre, p, post, e, -, -, -, hl⟩
    · rw [toOverlays, hl] at hne
      exact absurd rfl hne
    · rw [toOverlays, hl]
  · intro pre pat post hps hpre
    have key : ∀ v, firstMissing pat placeholders = some v →
        (toOverlays (E := E) ps).2
          = some (GoError.errorf "placeholder %q not found in pattern %q"
            [FmtArg.str v, FmtArg.str pat]) := by
      intro v hv
      have he := (overlayOf_error_iff (E := E) pat _).2 ⟨v, hv, rfl⟩
      rw [hps, toOverlays, toOverlaysLoop_first_error pre pat post [] _
        (fun q hq => overlayOf_ok_of_occurs q (hpre q hq)) he]
    refine ⟨fun h0 => key _ ?_, fun h0 h1 => key _ ?_, fun h0 h1 h2 => key _ ?_⟩
    · rw [firstMissing_placeholders]
      simp [(not_Occurs_iff _ _).1 h0]
    · rw [firstMissing_placeholders]
      simp [(Contains_iff _ _).2 h0, (not_Occurs_iff _ _).1 h1]
    · rw [firstMissing_placeholders]
      simp [(Contains_iff _ _).2 h0, (Contains_iff _ _).2 h1, (not_Occurs_iff _ _).1 h2]

/-- C9, on a valid pattern followed by `http://x/{1}/{2}.png`, and on the
pattern `http://x/{1}.png` that lacks both `{0}` and `{2}`: the error names
`{0}` and the pattern. -/
theorem toOverlays_fails_iff_witness :
    toOverlays (E := GoString) [goodPattern, patternWithout0]
        = (none, some (GoError.errorf "placeholder %q not found in pattern %q"
          [FmtArg.str (lit "\x7b0\x7d"), FmtArg.str (lit "http://x/\x7b1\x7d/\x7b2\x7d.png")]))
      ∧ ¬ Occurs (lit "\x7b2\x7d") patternOnly1
      ∧ (toOverlays (E := GoString) [patternOnly1]).2
        = some (GoError.errorf "placeholder %q not found in pattern %q"
          [FmtArg.str (lit "\x7b0\x7d"), FmtArg.str (lit "http://x/\x7b1\x7d.png")]) :=
  have h := toOverlays_fails_iff (E := GoString) [goodPattern, patternWithout0]
  have h3 := (h.2.2 [goodPattern] patternWithout0 [] rfl (by
    intro q hq
    rw [List.mem_singleton.1 hq]
    exact ⟨(Contains_iff _ _).1 (by decide), (Contains_iff _ _).1 (by decide),
      (Contains_iff _ _).1 (by decide)⟩)).1 ((not_Occurs_iff _ _).2 (by decide))
  have h2 := h.2.1 (by rw [h3]; simp)
  ⟨Prod.ext h2 h3, (not_Occurs_iff _ _).2 (by decide),
    ((toOverlays_fails_iff (E := GoString) [patternOnly1]).2.2 [] patternOnly1 [] rfl
      (by simp)).1 ((not_Occurs_iff _ _).2 (by decide))⟩

/-- C10: in the list `toOverlays` returns without error, the i-th provider has
the rewritten i-th pattern as URL pattern, tile size 256, and as name the
hexadecimal encoding of the SHA-256 digest of the bytes of that rewritten
pattern: 64 characters, each one of `0`-`9`, `a`-`f`. -/
theorem toOverlays_provider (ps : List GoString) (h : (toOverlays (E := E) ps).2 = none) :
    ∃ tps, (toOverlays (E := E) ps).1 = some tps ∧ tps.length = ps.length
      ∧ ∀ (i : Nat) (h₁ : i < ps.length) (h₂ : i < tps.length),
        (tps.get ⟨i, h₂⟩).URLPattern = Replace rewritePairs (ps.get ⟨i, h₁⟩)
          ∧ (tps.get ⟨i, h₂⟩).TileSize = 256
          ∧ (tps.get ⟨i, h₂⟩).Name = fmtX (SHA256.Sum256 (tps.get ⟨i, h₂⟩).URLPattern)
          ∧ (tps.get ⟨i, h₂⟩).Name.length = 64
          ∧ ∀ b ∈ (tps.get ⟨i, h₂⟩).Name, isLowerHex b = true := by
  obtain ⟨l, hl, hf⟩ := toOverlays_of_no_error (E := E) ps h
  refine ⟨l, by rw [hl], hf.length_eq.symm, fun i h₁ h₂ => ?_⟩
  have htp := ((overlayOf_ok_iff _ _).1 (hf.get h₁ h₂)).2
  rw [htp]
  refine ⟨rfl, rfl, rfl, ?_, fmtX_isLowerHex _⟩
  rw [fmtX_length, Sum256_length]

/-- C10, on the pattern `http://x/{0}/{1}/{2}.png`: the name is the digest of
the rewritten pattern `http://x/%[2]d/%[3]d/%[4]d.png` and differs from the
digest of the pattern as given. -/
theorem toOverlays_provider_witness :
    (∃ tps, (toOverlays (E := GoString) [goodPattern]).1 = some tps ∧ tps.length = 1
      ∧ ∀ (i : Nat) (h₁ : i < 1) (h₂ : i < tps.length),
        (tps.get ⟨i, h₂⟩).URLPattern = Replace rewritePairs ([goodPattern].get ⟨i, h₁⟩)
          ∧ (tps.get ⟨i, h₂⟩).TileSize = 256
          ∧ (tps.get ⟨i, h₂⟩).Name = fmtX (SHA256.Sum256 (tps.get ⟨i, h₂⟩).URLPattern)
          ∧ (tps.get ⟨i, h₂⟩).Name.length = 64
          ∧ ∀ b ∈ (tps.get ⟨i, h₂⟩).Name, isLowerHex b = true)
      ∧ (toOverlays (E := GoString) [goodPattern]).1
        = some [⟨lit "3c4b3d498c55ca3bd2ae020ed33d35123260e914f3561ee42fd81e887097dcc8", 256,
          lit "http://x/%[2]d/%[3]d/%[4]d.png"⟩]
      ∧ fmtX (SHA256.Sum256 goodPattern)
        ≠ lit "3c4b3d498c55ca3bd2ae020ed33d35123260e914f3561ee42fd81e887097dcc8" :=
  ⟨toOverlays_provider (E := GoString) [goodPattern] (by decide), by decide, by decide⟩

end Overlays

/-! ## The assembler: failures and the size check -/

section Failures

variable {M E X : Type}

theorem rawSpecs_eq (ms : List postMapMarker) (raw : List GoString) :
    rawSpecs ms raw = raw ++ ms.map postMapMarker.String := by
  induction ms generalizing raw with
  | nil => simp [rawSpecs]
  | cons m ms ih => simp [rawSpecs, ih]

/-- Within the bounds the assembler never returns the bounds error. -/
theorem inside_error_ne_bounds (D : Deps M E X) (p : postMapEnvelope)
    (hW : p.Width ≤ D.mapMaxX) (hH : p.Height ≤ D.mapMaxY) :
    (toGenerateMapConfig D p).2 ≠ some (boundsError D) := by
  rw [toGenerateMapConfig_inside D p hW hH]
  cases hm1 : toMarkers D p.Markers with
  | mk ms me =>
    cases ho1 : toOverlays (E := E) p.Overlays with
    | mk os oe =>
      cases hp1 : toPaths D p.Paths with
      | mk ps pe =>
        have hme := toMarkers_error D p.Markers
        have hoe := toOverlaysLoop_error (E := E) p.Overlays []
        have hpe := toPathsLoop_error D p.Paths []
        rw [hm1] at hme
        rw [show toOverlaysLoop (E := E) p.Overlays [] = (os, oe) from ho1] at hoe
        rw [show toPathsLoop D p.Paths [] = (ps, pe) from hp1] at hpe
        simp only at hme hoe hpe
        cases me with
        | some em =>
          obtain ⟨x, hx⟩ := hme em rfl
          simp [hx, boundsError]
        | none =>
          cases oe with
          | some eo =>
            obtain ⟨v, pat, hx⟩ := hoe eo rfl
            simp [hx, boundsError]
          | none =>
            cases pe with
            | some ep =>
              obtain ⟨c, x, hx⟩ := hpe ep rfl
              simp [hx, boundsError]
            | none => simp

/-- Outside the bounds the assembler returns the zero configuration and the
bounds error. -/
theorem toGenerateMapConfig_outside (D : Deps M E X) (p : postMapEnvelope)
    (h : p.Width > D.mapMaxX ∨ p.Height > D.mapMaxY) :
    toGenerateMapConfig D p = (generateMapConfig.zero, some (boundsError D)) := by
  unfold toGenerateMapConfig
  simp only [h, if_true]

/-- A failing assembler returns the zero configuration. -/
theorem toGenerateMapConfig_zero_of_error (D : Deps M E X) (p : postMapEnvelope)
    (h : (toGenerateMapConfig D p).2 ≠ none) :
    (toGenerateMapConfig D p).1 = generateMapConfig.zero := by
  by_cases hb : p.Width > D.mapMaxX ∨ p.Height > D.mapMaxY
  · rw [toGenerateMapConfig_outside D p hb]
  · have hW : p.Width ≤ D.mapMaxX := by omega
    have hH : p.Height ≤ D.mapMaxY := by omega
    rw [toGenerateMapConfig_inside D p hW hH] at h ⊢
    cases hm1 : toMarkers D p.Markers with
    | mk ms me =>
      cases ho1 : toOverlays (E := E) p.Overlays with
      | mk os oe =>
        cases hp1 : toPaths D p.Paths with
        | mk ps pe =>
          rw [hm1, ho1, hp1] at h
          cases me with
          | some em => rfl
          | none =>
            cases oe with
            | some eo => rfl
            | none =>
              cases pe with
              | some ep => rfl
              | none => exact absurd rfl h

/-- C14: when `toGenerateMapConfig` returns an error, whichever of the four
checks failed, the configuration next to it is `generateMapConfig{}`, the
zero value, with nothing of the envelope and none of the lists translated
before the failure; `toPaths` and `toOverlays` return the nil slice next to
an error. -/
theorem failure_returns_zero (D : Deps M E X) (p : postMapEnvelope)
    (ps : List postMapPath) (os : List GoString) :
    ((toGenerateMapConfig D p).2 ≠ none →
        (toGenerateMapConfig D p).1
          = ⟨⟨⟨false, 0, 0⟩, ⟨false, 0, 0⟩⟩, 0, none, 0, 0, false, none, none⟩)
      ∧ ((toPaths D ps).2 ≠ none → (toPaths D ps).1 = none)
      ∧ ((toOverlays (E := E) os).2 ≠ none → (toOverlays (E := E) os).1 = none) := by
  refine ⟨fun h => toGenerateMapConfig_zero_of_error D p h, ?_, ?_⟩
  · intro hne
    rcases toPathsLoop_cases D ps [] with ⟨l, hl, -⟩ | ⟨pre, q, post, e, -, -, -, hl⟩
    · rw [toPaths, hl] at hne
      exact absurd rfl hne
    · rw [toPaths, hl]
  · intro hne
    rcases toOverlaysLoop_cases (E := E) os [] with ⟨l, hl, -⟩ | ⟨pre, q, post, e, -, -, -, hl⟩
    · rw [toOverlays, hl] at hne
      exact absurd rfl hne
    · rw [toOverlays, hl]

/-- C14, on the envelope whose only invalid part is the second path, after
markers, overlays and the first path were translated. -/
theorem failure_returns_zero_witness :
    (toMarkers sampleDeps pathBadEnvelope.Markers).1 ≠ none
      ∧ (toOverlays (E := GoString) pathBadEnvelope.Overlays).1 ≠ none
      ∧ (toGenerateMapConfig sampleDeps pathBadEnvelope).1
        = ⟨⟨⟨false, 0, 0⟩, ⟨false, 0, 0⟩⟩, 0, none, 0, 0, false, none, none⟩
      ∧ (toPaths sampleDeps pathBadEnvelope.Paths).1 = none
      ∧ (toOverlays (E := GoString) allBadEnvelope.Overlays).1 = none :=
  have h := failure_returns_zero sampleDeps pathBadEnvelope pathBadEnvelope.Paths
    allBadEnvelope.Overlays
  ⟨by decide, by decide, h.1 (by decide), h.2.1 (by decide), h.2.2 (by decide)⟩

/-- C16: `toMarkers` is the marker-spec parser applied to the spec strings of
the descriptors, one per descriptor in input order: the parser's markers and
nil error when the parser succeeds, the parser's error and the parser's nil
list when it fails. -/
theorem toMarkers_parses_specs (D : Deps M E X) (ms : List postMapMarker) :
    toMarkers D ms
        = ((D.parseMarkerLocations (ms.map postMapMarker.String)).1,
          (D.parseMarkerLocations (ms.map postMapMarker.String)).2.map GoError.ext)
      ∧ (ms.map postMapMarker.String).length = ms.length
      ∧ toMarkers D [] = ((D.parseMarkerLocations []).1,
          (D.parseMarkerLocations []).2.map GoError.ext)
      ∧ (∀ l, D.parseMarkerLocations (ms.map postMapMarker.String) = (l, none) →
          toMarkers D ms = (l, none))
      ∧ (∀ e, D.parseMarkerLocations (ms.map postMapMarker.String) = (none, some e) →
          toMarkers D ms = (none, some (GoError.ext e))) := by
  have h : toMarkers D ms
        = ((D.parseMarkerLocations (ms.map postMapMarker.String)).1,
          (D.parseMarkerLocations (ms.map postMapMarker.String)).2.map GoError.ext) := by
    simp [toMarkers, rawSpecs_eq]
  refine ⟨h, by simp, rfl, ?_, ?_⟩
  · intro l hl
    rw [h, hl]
    rfl
  · intro e he
    rw [h, he]
    rfl

/-- C16, on an accepted marker and on a list with a rejected marker. -/
theorem toMarkers_parses_specs_witness :
    toMarkers sampleDeps [goodMarker]
        = (some [lit "size:mid|color:0xff0000|45.000000,-122.000000"], none)
      ∧ toMarkers sampleDeps [goodMarker, badMarker]
        = (none, some (GoError.ext (lit "invalid marker size"))) :=
  ⟨(toMarkers_parses_specs sampleDeps [goodMarker]).2.2.2.1 _ (by decide),
    (toMarkers_parses_specs sampleDeps [goodMarker, badMarker]).2.2.2.2 _ (by decide)⟩

/-- C19: the size check is an upper bound only.  The bounds error is returned
exactly when the width exceeds `mapMaxX` or the height exceeds `mapMaxY`; with
non-negative bounds a width or height of zero or below does not trigger it
(the other dimension being within its bound), and an envelope within the
upper bounds with valid lists is assembled with its width and height, also
non-positive ones, copied into the configuration. -/
theorem size_check_upper_bound_only (D : Deps M E X) (p : postMapEnvelope) :
    ((toGenerateMapConfig D p).2
          = some (GoError.errorf "map size exceeds allowed bounds of %dx%d"
            [FmtArg.int D.mapMaxX, FmtArg.int D.mapMaxY])
        ↔ p.Width > D.mapMaxX ∨ p.Height > D.mapMaxY)
      ∧ (0 ≤ D.mapMaxX → 0 ≤ D.mapMaxY → p.Width ≤ 0 → p.Height ≤ 0 →
          (toGenerateMapConfig D p).2
            ≠ some (GoError.errorf "map size exceeds allowed bounds of %dx%d"
              [FmtArg.int D.mapMaxX, FmtArg.int D.mapMaxY]))
      ∧ (0 ≤ D.mapMaxX → p.Width ≤ 0 → p.Height ≤ D.mapMaxY →
          (toGenerateMapConfig D p).2
            ≠ some (GoError.errorf "map size exceeds allowed bounds of %dx%d"
              [FmtArg.int D.mapMaxX, FmtArg.int D.mapMaxY]))
      ∧ (0 ≤ D.mapMaxY → p.Height ≤ 0 → p.Width ≤ D.mapMaxX →
          (toGenerateMapConfig D p).2
            ≠ some (GoError.errorf "map size exceeds allowed bounds of %dx%d"
              [FmtArg.int D.mapMaxX, FmtArg.int D.mapMaxY]))
      ∧ (p.Width ≤ D.mapMaxX → p.Height ≤ D.mapMaxY →
          (toMarkers D p.Markers).2 = none → (toOverlays (E := E) p.Overlays).2 = none →
          (toPaths D p.Paths).2 = none →
          (toGenerateMapConfig D p).2 = none
            ∧ (toGenerateMapConfig D p).1.Width = p.Width
            ∧ (toGenerateMapConfig D p).1.Height = p.Height) := by
  refine ⟨⟨?_, ?_⟩, ?_, ?_, ?_, ?_⟩
  · intro h
    by_contra hb
    exact inside_error_ne_bounds D p (by omega) (by omega) h
  · intro hb
    rw [toGenerateMapConfig_outside D p hb]
    rfl
  · intro h0 h1 hW hH
    exact inside_error_ne_bounds D p (by omega) (by omega)
  · intro h0 hW hH
    exact inside_error_ne_bounds D p (by omega) hH
  · intro h0 hH hW
    exact inside_error_ne_bounds D p hW (by omega)
  · intro hW hH hm ho hp
    rw [toGenerateMapConfig_inside D p hW hH]
    cases hm1 : toMarkers D p.Markers with
    | mk ms me =>
      cases ho1 : toOverlays (E := E) p.Overlays with
      | mk os oe =>
        cases hp1 : toPaths D p.Paths with
        | mk ps pe =>
          rw [hm1] at hm; rw [ho1] at ho; rw [hp1] at hp
          simp only at hm ho hp
          subst hm; subst ho; subst hp
          exact ⟨rfl, rfl, rfl⟩

/-- C19, on a valid envelope of width 0 and height -5 under the bounds
1024 x 1024: no error, and the configuration has width 0 and height -5. -/
theorem size_check_upper_bound_only_witness :
    (toGenerateMapConfig sampleDeps flatEnvelope).2 = none
      ∧ (toGenerateMapConfig sampleDeps flatEnvelope).1.Width = 0
      ∧ (toGenerateMapConfig sampleDeps flatEnvelope).1.Height = -5
      ∧ (toGenerateMapConfig sampleDeps flatEnvelope).2
        ≠ some (GoError.errorf "map size exceeds allowed bounds of %dx%d"
          [FmtArg.int 1024, FmtArg.int 1024]) :=
  have h := size_check_upper_bound_only sampleDeps flatEnvelope
  have h5 := h.2.2.2.2 (by decide) (by decide) (by decide) (by decide) (by decide)
  ⟨h5.1, h5.2.1, h5.2.2, h.2.1 (by decide) (by decide) (by decide) (by decide)⟩

end Failures

/-! ## Overlays: one provider per pattern -/

section Providers

variable {E : Type}

/-- In an accepted list the i-th provider is built from the i-th pattern. -/
theorem toOverlays_get (ps : List GoString) (h : (toOverlays (E := E) ps).2 = none) :
    ∃ tps, (toOverlays (E := E) ps).1 = some tps ∧ tps.length = ps.length
      ∧ ∀ (i : Nat) (h₁ : i < ps.length) (h₂ : i < tps.length),
        tps.get ⟨i, h₂⟩
          = ⟨fmtX (SHA256.Sum256 (Replace rewritePairs (ps.get ⟨i, h₁⟩))), 256,
            Replace rewritePairs (ps.get ⟨i, h₁⟩)⟩ := by
  obtain ⟨l, hl, hf⟩ := toOverlays_of_no_error (E := E) ps h
  refine ⟨l, by rw [hl], hf.length_eq.symm, fun i h₁ h₂ => ?_⟩
  exact ((overlayOf_ok_iff _ _).1 (hf.get h₁ h₂)).2

/-- C11: for accepted lists `ps` and `qs`, the results have the lengths of the
inputs, the i-th provider is the one built from the i-th pattern alone (name,
tile size 256 and URL pattern are functions of that pattern), and two
patterns, at any positions of the same or of different lists, that rewrite to
the same string have providers with the same name, tile size and URL
pattern. -/
theorem toOverlays_pointwise (ps qs : List GoString)
    (hp : (toOverlays (E := E) ps).2 = none) (hq : (toOverlays (E := E) qs).2 = none) :
    ∃ tps tqs, (toOverlays (E := E) ps).1 = some tps ∧ (toOverlays (E := E) qs).1 = some tqs
      ∧ tps.length = ps.length ∧ tqs.length = qs.length
      ∧ (∀ (i : Nat) (h₁ : i < ps.length) (h₂ : i < tps.length),
          tps.get ⟨i, h₂⟩
            = ⟨fmtX (SHA256.Sum256 (Replace rewritePairs (ps.get ⟨i, h₁⟩))), 256,
              Replace rewritePairs (ps.get ⟨i, h₁⟩)⟩)
      ∧ (∀ (i j : Nat) (h₁ : i < ps.length) (h₂ : i < tps.length) (h₃ : j < qs.length)
          (h₄ : j < tqs.length),
          Replace rewritePairs (ps.get ⟨i, h₁⟩) = Replace rewritePairs (qs.get ⟨j, h₃⟩) →
          (tps.get ⟨i, h₂⟩).Name = (tqs.get ⟨j, h₄⟩).Name
            ∧ (tps.get ⟨i, h₂⟩).TileSize = (tqs.get ⟨j, h₄⟩).TileSize
            ∧ (tps.get ⟨i, h₂⟩).URLPattern = (tqs.get ⟨j, h₄⟩).URLPattern) := by
  obtain ⟨tps, h1, h2, h3⟩ := toOverlays_get (E := E) ps hp
  obtain ⟨tqs, k1, k2, k3⟩ := toOverlays_get (E := E) qs hq
  refine ⟨tps, tqs, h1, k1, h2, k2, h3, ?_⟩
  intro i j h₁ h₂ h₃ h₄ heq
  rw [h3 i h₁ h₂, k3 j h₃ h₄, heq]
  exact ⟨rfl, rfl, rfl⟩

/-- C11, on a list that holds one pattern twice and on two different patterns
with the same rewritten string: the providers coincide, nothing is dropped. -/
theorem toOverlays_pointwise_witness :
    toOverlays (E := GoString) [goodPattern, doubledPattern, goodPattern]
        = (some [⟨lit "3c4b3d498c55ca3bd2ae020ed33d35123260e914f3561ee42fd81e887097dcc8", 256,
              lit "http://x/%[2]d/%[3]d/%[4]d.png"⟩,
            ⟨fmtX (SHA256.Sum256 (lit "%[2]d/%[2]d/%[3]d/%[4]d")), 256,
              lit "%[2]d/%[2]d/%[3]d/%[4]d"⟩,
            ⟨lit "3c4b3d498c55ca3bd2ae020ed33d35123260e914f3561ee42fd81e887097dcc8", 256,
              lit "http://x/%[2]d/%[3]d/%[4]d.png"⟩], none)
      ∧ ∃ tps tqs, (toOverlays (E := GoString) [goodPattern, doubledPattern, goodPattern]).1
          = some tps
        ∧ (toOverlays (E := GoString) [literalSlotPattern]).1 = some tqs
        ∧ tps.length = 3 ∧ tqs.length = 1
        ∧ (∀ (h₂ : 1 < tps.length) (h₄ : 0 < tqs.length),
          (tps.get ⟨1, h₂⟩).Name = (tqs.get ⟨0, h₄⟩).Name
            ∧ (tps.get ⟨1, h₂⟩).TileSize = (tqs.get ⟨0, h₄⟩).TileSize
            ∧ (tps.get ⟨1, h₂⟩).URLPattern = (tqs.get ⟨0, h₄⟩).URLPattern) :=
  ⟨by decide,
    match toOverlays_pointwise (E := GoString) [goodPattern, doubledPattern, goodPattern]
      [literalSlotPattern] (by decide) (by decide) with
    | ⟨tps, tqs, h1, k1, h2, k2, _, h4⟩ =>
      ⟨tps, tqs, h1, k1, h2, k2, fun h₂ h₄ =>
        h4 1 0 (by decide) h₂ (by decide) h₄ (by decide)⟩⟩

/-- C15: the patterns `%[2]d/{0}/{1}/{2}` and `{0}/{0}/{1}/{2}` are different,
both are accepted by `toOverlays`, and they get the same rewritten URL
pattern `%[2]d/%[2]d/%[3]d/%[4]d` and hence the same name: the rewrite is not
injective on accepted patterns. -/
theorem rewrite_not_injective :
    ∃ p q : GoString, p ≠ q
      ∧ (toOverlays (E := GoString) [p]).2 = none ∧ (toOverlays (E := GoString) [q]).2 = none
      ∧ Replace rewritePairs p = Replace rewritePairs q
      ∧ ∃ tp tq, (toOverlays (E := GoString) [p]).1 = some [tp]
        ∧ (toOverlays (E := GoString) [q]).1 = some [tq]
        ∧ tp.URLPattern = tq.URLPattern ∧ tp.Name = tq.Name
        ∧ tp.URLPattern = lit "%[2]d/%[2]d/%[3]d/%[4]d" :=
  ⟨literalSlotPattern, doubledPattern, by decide, by decide, by decide, by decide,
    ⟨fmtX (SHA256.Sum256 (lit "%[2]d/%[2]d/%[3]d/%[4]d")), 256, lit "%[2]d/%[2]d/%[3]d/%[4]d"⟩,
    ⟨fmtX (SHA256.Sum256 (lit "%[2]d/%[2]d/%[3]d/%[4]d")), 256, lit "%[2]d/%[2]d/%[3]d/%[4]d"⟩,
    by decide, by decide, rfl, rfl, rfl⟩

end Providers

/-! ## The replacer -/

section Replacer

theorem lit_ph0 : lit "\x7b0\x7d" = [123, 48, 125] := by decide

theorem lit_ph1 : lit "\x7b1\x7d" = [123, 49, 125] := by decide

theorem lit_ph2 : lit "\x7b2\x7d" = [123, 50, 125] := by decide

theorem lit_slot2 : lit "%[2]d" = [37, 91, 50, 93, 100] := by decide

theorem lit_slot3 : lit "%[3]d" = [37, 91, 51, 93, 100] := by decide

theorem lit_slot4 : lit "%[4]d" = [37, 91, 52, 93, 100] := by decide

theorem rewritePairs_eq : rewritePairs =
    [([123, 48, 125], [37, 91, 50, 93, 100]), ([123, 49, 125], [37, 91, 51, 93, 100]),
      ([123, 50, 125], [37, 91, 52, 93, 100])] := by decide

theorem placeholders_eq : placeholders = [[123, 48, 125], [123, 49, 125], [123, 50, 125]] := by
  decide

/-- A pair of the replacer is found at the head of its own old string. -/
theorem lookupPair_pair (p : GoString × GoString) (hp : p ∈ rewritePairs) (rest : GoString) :
    lookupPair rewritePairs (p.1 ++ rest) = some p := by
  rw [rewritePairs_eq] at hp ⊢
  simp only [List.mem_cons, List.mem_singleton, List.not_mem_nil, or_false] at hp
  rcases hp with rfl | rfl | rfl <;> simp [lookupPair, startsWith]

/-- The pair found at the head of a string is a pair of the replacer whose
old string starts the string. -/
theorem lookupPair_some (s : GoString) (p : GoString × GoString)
    (h : lookupPair rewritePairs s = some p) : p ∈ rewritePairs ∧ ∃ rest, s = p.1 ++ rest := by
  unfold lookupPair at h
  exact ⟨List.mem_of_find?_eq_some h,
    (startsWith_iff _ _).1 (by simpa using List.find?_some h)⟩

/-- No pair is found exactly when no placeholder starts the string. -/
theorem lookupPair_none_iff (s : GoString) :
    lookupPair rewritePairs s = none ↔ ∀ v ∈ placeholders, startsWith s v = false := by
  rw [rewritePairs_eq, placeholders_eq]
  simp [lookupPair]

theorem Replace_nil : Replace rewritePairs [] = [] := rfl

/-- The replacer at a placeholder. -/
theorem Replace_pair (p : GoString × GoString) (hp : p ∈ rewritePairs) (rest : GoString) :
    Replace rewritePairs (p.1 ++ rest) = p.2 ++ Replace rewritePairs rest := by
  have h := lookupPair_pair p hp rest
  rw [rewritePairs_eq] at hp
  simp only [List.mem_cons, List.mem_singleton, List.not_mem_nil, or_false] at hp
  rcases hp with rfl | rfl | rfl <;>
    · simp only [List.cons_append, List.nil_append] at h ⊢
      simp only [Replace, replaceFrom, h]
      rfl

/-- The replacer at a byte that starts no placeholder. -/
theorem Replace_other (c : Byte) (t : GoString)
    (h : lookupPair rewritePairs (c :: t) = none) :
    Replace rewritePairs (c :: t) = c :: Replace rewritePairs t := by
  simp only [Replace, replaceFrom, h]

/-- The three shapes of an input of the replacer. -/
theorem replace_cases (s : GoString) :
    s = [] ∨ (∃ p ∈ rewritePairs, ∃ rest, s = p.1 ++ rest)
      ∨ ∃ c t, s = c :: t ∧ lookupPair rewritePairs (c :: t) = none := by
  cases s with
  | nil => exact Or.inl rfl
  | cons c t =>
    cases h : lookupPair rewritePairs (c :: t) with
    | none => exact Or.inr (Or.inr ⟨c, t, rfl, h⟩)
    | some p =>
      obtain ⟨hp, rest, hr⟩ := lookupPair_some _ _ h
      exact Or.inr (Or.inl ⟨p, hp, rest, hr⟩)

theorem pair_length (p : GoString × GoString) (hp : p ∈ rewritePairs) : p.1.length = 3 := by
  rw [rewritePairs_eq] at hp
  simp only [List.mem_cons, List.mem_singleton, List.not_mem_nil, or_false] at hp
  rcases hp with rfl | rfl | rfl <;> rfl

/-- Induction along the pass of the replacer. -/
theorem replace_induction {P : GoString → Prop} (hnil : P [])
    (hpair : ∀ p ∈ rewritePairs, ∀ rest, P rest → P (p.1 ++ rest))
    (hother : ∀ c t, lookupPair rewritePairs (c :: t) = none → P t → P (c :: t)) :
    ∀ s, P s := by
  have key : ∀ n, ∀ s : GoString, s.length ≤ n → P s := by
    intro n
    induction n with
    | zero =>
      intro s hs
      have : s = [] := List.length_eq_zero.1 (by omega)
      subst this
      exact hnil
    | succ n ih =>
      intro s hs
      rcases replace_cases s with rfl | ⟨p, hp, rest, rfl⟩ | ⟨c, t, rfl, hl⟩
      · exact hnil
      · refine hpair p hp rest (ih rest ?_)
        have := pair_length p hp
        simp only [List.length_append] at hs
        omega
      · refine hother c t hl (ih t ?_)
        simp only [List.length_cons] at hs
        omega
  exact fun s => key s.length s (Nat.le_refl _)

theorem pair_fst_mem (p : GoString × GoString) (hp : p ∈ rewritePairs) :
    p.1 ∈ placeholders := by
  rw [rewritePairs_eq] at hp
  rw [placeholders_eq]
  simp only [List.mem_cons, List.mem_singleton, List.not_mem_nil, or_false] at hp
  rcases hp with rfl | rfl | rfl <;> simp

/-- A placeholder that follows a non-empty string does not change what
starts that string: no match straddles the border. -/
theorem startsWith_before_placeholder (c : Byte) (t b u v : GoString)
    (hu : u ∈ placeholders) (hv : v ∈ placeholders) :
    startsWith (c :: t ++ u ++ b) v = startsWith (c :: t) v := by
  rw [placeholders_eq] at hu hv
  simp only [List.mem_cons, List.mem_singleton, List.not_mem_nil, or_false] at hu hv
  rcases t with _ | ⟨x, _ | ⟨y, t⟩⟩ <;> rcases hu with rfl | rfl | rfl <;>
    rcases hv with rfl | rfl | rfl <;> simp [startsWith]

/-- The replacer splits at every occurrence of a placeholder. -/
theorem Replace_at_occurrence (p : GoString × GoString) (hp : p ∈ rewritePairs)
    (a b : GoString) :
    Replace rewritePairs (a ++ p.1 ++ b)
      = Replace rewritePairs a ++ p.2 ++ Replace rewritePairs b := by
  induction a using replace_induction with
  | hnil => simp [Replace_pair p hp, Replace_nil]
  | hpair q hq rest ih =>
    rw [List.append_assoc, List.append_assoc, Replace_pair q hq, ← List.append_assoc, ih,
      Replace_pair q hq]
    simp
  | hother c t hl ih =>
    have hl2 : lookupPair rewritePairs (c :: (t ++ p.1 ++ b)) = none := by
      rw [lookupPair_none_iff] at hl ⊢
      intro v hv
      have := startsWith_before_placeholder c t b p.1 v (pair_fst_mem p hp) hv
      simp only [List.cons_append] at this
      rw [this]
      exact hl v hv
    have e : c :: t ++ p.1 ++ b = c :: (t ++ p.1 ++ b) := by simp
    rw [e, Replace_other c _ hl2, ih, Replace_other c t hl]
    simp

/-- The replacer keeps a string without placeholders as it is. -/
theorem Replace_of_no_placeholder (s : GoString)
    (h : ∀ v ∈ placeholders, Contains s v = false) : Replace rewritePairs s = s := by
  induction s with
  | nil => rfl
  | cons c t ih =>
    have h1 : ∀ v ∈ placeholders, startsWith (c :: t) v = false ∧ Contains t v = false := by
      intro v hv
      have := h v hv
      simpa [Contains] using this
    rw [Replace_other c t ((lookupPair_none_iff _).2 fun v hv => (h1 v hv).1),
      ih fun v hv => (h1 v hv).2]

/-- An output byte other than `%` is an input byte that was copied. -/
theorem Replace_head (s : GoString) (x : Byte) (t : GoString)
    (h : Replace rewritePairs s = x :: t) (hx : x ≠ 37) :
    ∃ r, s = x :: r ∧ Replace rewritePairs r = t
      ∧ lookupPair rewritePairs (x :: r) = none := by
  rcases replace_cases s with rfl | ⟨p, hp, rest, rfl⟩ | ⟨c, r, rfl, hl⟩
  · simp [Replace_nil] at h
  · rw [Replace_pair p hp] at h
    rw [rewritePairs_eq] at hp
    simp only [List.mem_cons, List.mem_singleton, List.not_mem_nil, or_false] at hp
    rcases hp with rfl | rfl | rfl <;>
      · simp only [List.cons_append, List.cons.injEq] at h
        exact absurd h.1.symm hx
  · rw [Replace_other c r hl] at h
    simp only [List.cons.injEq] at h
    obtain ⟨rfl, rfl⟩ := h
    exact ⟨r, rfl, rfl, hl⟩

/-- A placeholder at the head of a copied byte and the output was already a
placeholder of the input. -/
theorem startsWith_Replace (c : Byte) (s v : GoString) (hv : v ∈ placeholders)
    (h : startsWith (c :: Replace rewritePairs s) v = true) :
    startsWith (c :: s) v = true := by
  obtain ⟨b, hb⟩ := (startsWith_iff _ _).1 h
  rw [placeholders_eq] at hv
  simp only [List.mem_cons, List.mem_singleton, List.not_mem_nil, or_false] at hv
  rcases hv with rfl | rfl | rfl <;>
    · simp only [List.cons_append, List.nil_append, List.cons.injEq] at hb
      obtain ⟨rfl, hb⟩ := hb
      obtain ⟨r, rfl, hr, -⟩ := Replace_head s _ _ hb (by decide)
      obtain ⟨r2, rfl, -, -⟩ := Replace_head r _ _ hr (by decide)
      simp [startsWith]

/-- The output of the replacer holds no placeholder. -/
theorem Replace_no_placeholder (s v : GoString) (hv : v ∈ placeholders) :
    Contains (Replace rewritePairs s) v = false := by
  induction s using replace_induction with
  | hnil =>
    rw [placeholders_eq] at hv
    simp only [List.mem_cons, List.mem_singleton, List.not_mem_nil, or_false] at hv
    rcases hv with rfl | rfl | rfl <;> rfl
  | hpair p hp rest ih =>
    rw [Replace_pair p hp]
    rw [rewritePairs_eq] at hp
    rw [placeholders_eq] at hv
    simp only [List.mem_cons, List.mem_singleton, List.not_mem_nil, or_false] at hp hv
    rcases hp with rfl | rfl | rfl <;> rcases hv with rfl | rfl | rfl <;>
      simpa [Contains, startsWith] using ih
  | hother c t hl ih =>
    rw [Replace_other c t hl]
    simp only [Contains, Bool.or_eq_false_iff]
    refine ⟨?_, ih⟩
    by_contra hne
    have h1 := startsWith_Replace c t v hv (by simpa using hne)
    rw [(lookupPair_none_iff _).1 hl v hv] at h1
    exact absurd h1 (by simp)

end Replacer

section Rewriting

variable {E : Type}

/-- C12: the rewritten URL pattern of an accepted pattern is the replacer's
output, and the replacer replaces every occurrence of `{0}` by `%[2]d`, of
`{1}` by `%[3]d` and of `{2}` by `%[4]d`: it splits at each occurrence into
the rewritten text before it, the slot and the rewritten text after it, and
it keeps a text without placeholders unchanged.  A pattern with the three
placeholders is accepted however often they occur. -/
theorem rewrite_every_occurrence :
    (∀ a b : GoString, Replace rewritePairs (a ++ lit "\x7b0\x7d" ++ b)
        = Replace rewritePairs a ++ lit "%[2]d" ++ Replace rewritePairs b)
      ∧ (∀ a b : GoString, Replace rewritePairs (a ++ lit "\x7b1\x7d" ++ b)
        = Replace rewritePairs a ++ lit "%[3]d" ++ Replace rewritePairs b)
      ∧ (∀ a b : GoString, Replace rewritePairs (a ++ lit "\x7b2\x7d" ++ b)
        = Replace rewritePairs a ++ lit "%[4]d" ++ Replace rewritePairs b)
      ∧ (∀ s : GoString, ¬ Occurs (lit "\x7b0\x7d") s → ¬ Occurs (lit "\x7b1\x7d") s →
          ¬ Occurs (lit "\x7b2\x7d") s → Replace rewritePairs s = s)
      ∧ (∀ ps : List GoString, (toOverlays (E := E) ps).2 = none →
          ∃ tps, (toOverlays (E := E) ps).1 = some tps ∧ tps.length = ps.length
            ∧ ∀ (i : Nat) (h₁ : i < ps.length) (h₂ : i < tps.length),
              (tps.get ⟨i, h₂⟩).URLPattern = Replace rewritePairs (ps.get ⟨i, h₁⟩))
      ∧ (∀ pat : GoString, Occurs (lit "\x7b0\x7d") pat → Occurs (lit "\x7b1\x7d") pat →
          Occurs (lit "\x7b2\x7d") pat →
          (toOverlays (E := E) [pat]).2 = none
            ∧ ∃ tp, (toOverlays (E := E) [pat]).1 = some [tp]
              ∧ tp.URLPattern = Replace rewritePairs pat) := by
  have hp0 : ((lit "\x7b0\x7d", lit "%[2]d") : GoString × GoString) ∈ rewritePairs := by
    simp [rewritePairs]
  have hp1 : ((lit "\x7b1\x7d", lit "%[3]d") : GoString × GoString) ∈ rewritePairs := by
    simp [rewritePairs]
  have hp2 : ((lit "\x7b2\x7d", lit "%[4]d") : GoString × GoString) ∈ rewritePairs := by
    simp [rewritePairs]
  refine ⟨Replace_at_occurrence _ hp0, Replace_at_occurrence _ hp1,
    Replace_at_occurrence _ hp2, ?_, ?_, ?_⟩
  · intro s h0 h1 h2
    apply Replace_of_no_placeholder
    intro v hv
    simp only [placeholders, List.mem_cons, List.mem_singleton, List.not_mem_nil,
      or_false] at hv
    rcases hv with rfl | rfl | rfl
    · exact (not_Occurs_iff _ _).1 h0
    · exact (not_Occurs_iff _ _).1 h1
    · exact (not_Occurs_iff _ _).1 h2
  · intro ps h
    obtain ⟨tps, h1, h2, h3⟩ := toOverlays_get (E := E) ps h
    exact ⟨tps, h1, h2, fun i h₁ h₂ => by rw [h3 i h₁ h₂]⟩
  · intro pat h0 h1 h2
    have hok := (overlayOf_ok_iff (E := E) pat _).2
      ⟨(firstMissing_none_iff pat).2 ⟨h0, h1, h2⟩, rfl⟩
    have : toOverlays (E := E) [pat]
        = (some [⟨fmtX (SHA256.Sum256 (Replace rewritePairs pat)), 256,
          Replace rewritePairs pat⟩], none) := by
      simp [toOverlays, toOverlaysLoop, hok]
    rw [this]
    exact ⟨rfl, _, rfl, rfl⟩

/-- C12, on the pattern `{0}/{0}/{1}/{2}` with two occurrences of `{0}`: it is
accepted and rewritten to `%[2]d/%[2]d/%[3]d/%[4]d`. -/
theorem rewrite_every_occurrence_witness :
    (toOverlays (E := GoString) [doubledPattern]).2 = none
      ∧ (∃ tp, (toOverlays (E := GoString) [doubledPattern]).1 = some [tp]
        ∧ tp.URLPattern = Replace rewritePairs doubledPattern)
      ∧ Replace rewritePairs doubledPattern = lit "%[2]d/%[2]d/%[3]d/%[4]d"
      ∧ Replace rewritePairs (lit "a.b/c") = lit "a.b/c" :=
  have h := rewrite_every_occurrence (E := GoString)
  have h6 := h.2.2.2.2.2 doubledPattern ((Contains_iff _ _).1 (by decide))
    ((Contains_iff _ _).1 (by decide)) ((Contains_iff _ _).1 (by decide))
  ⟨h6.1, h6.2, by decide,
    h.2.2.2.1 (lit "a.b/c") ((not_Occurs_iff _ _).2 (by decide))
      ((not_Occurs_iff _ _).2 (by decide)) ((not_Occurs_iff _ _).2 (by decide))⟩

/-- C17: the rewritten URL pattern of an accepted pattern contains none of
`{0}`, `{1}`, `{2}` and contains each of `%[2]d`, `%[3]d`, `%[4]d`. -/
theorem rewritten_pattern_slots (ps : List GoString) (h : (toOverlays (E := E) ps).2 = none) :
    ∃ tps, (toOverlays (E := E) ps).1 = some tps ∧ tps.length = ps.length
      ∧ ∀ (i : Nat) (h₂ : i < tps.length),
        ¬ Occurs (lit "\x7b0\x7d") (tps.get ⟨i, h₂⟩).URLPattern
          ∧ ¬ Occurs (lit "\x7b1\x7d") (tps.get ⟨i, h₂⟩).URLPattern
          ∧ ¬ Occurs (lit "\x7b2\x7d") (tps.get ⟨i, h₂⟩).URLPattern
          ∧ Occurs (lit "%[2]d") (tps.get ⟨i, h₂⟩).URLPattern
          ∧ Occurs (lit "%[3]d") (tps.get ⟨i, h₂⟩).URLPattern
          ∧ Occurs (lit "%[4]d") (tps.get ⟨i, h₂⟩).URLPattern := by
  obtain ⟨l, hl, hf⟩ := toOverlays_of_no_error (E := E) ps h
  refine ⟨l, by rw [hl], hf.length_eq.symm, fun i h₂ => ?_⟩
  have h₁ : i < ps.length := by rw [hf.length_eq]; exact h₂
  obtain ⟨hfm, htp⟩ := (overlayOf_ok_iff _ _).1 (hf.get h₁ h₂)
  obtain ⟨⟨a0, b0, e0⟩, ⟨a1, b1, e1⟩, ⟨a2, b2, e2⟩⟩ := (firstMissing_none_iff _).1 hfm
  have hp0 : ((lit "\x7b0\x7d", lit "%[2]d") : GoString × GoString) ∈ rewritePairs := by
    simp [rewritePairs]
  have hp1 : ((lit "\x7b1\x7d", lit "%[3]d") : GoString × GoString) ∈ rewritePairs := by
    simp [rewritePairs]
  have hp2 : ((lit "\x7b2\x7d", lit "%[4]d") : GoString × GoString) ∈ rewritePairs := by
    simp [rewritePairs]
  rw [htp]
  refine ⟨?_, ?_, ?_, ?_, ?_, ?_⟩
  · exact (not_Occurs_iff _ _).2 (Replace_no_placeholder _ _ (by simp [placeholders]))
  · exact (not_Occurs_iff _ _).2 (Replace_no_placeholder _ _ (by simp [placeholders]))
  · exact (not_Occurs_iff _ _).2 (Replace_no_placeholder _ _ (by simp [placeholders]))
  · exact ⟨_, _, by
      show Replace rewritePairs (ps.get ⟨i, h₁⟩) = _
      rw [e0]; exact Replace_at_occurrence _ hp0 a0 b0⟩
  · exact ⟨_, _, by
      show Replace rewritePairs (ps.get ⟨i, h₁⟩) = _
      rw [e1]; exact Replace_at_occurrence _ hp1 a1 b1⟩
  · exact ⟨_, _, by
      show Replace rewritePairs (ps.get ⟨i, h₁⟩) = _
      rw [e2]; exact Replace_at_occurrence _ hp2 a2 b2⟩

/-- C17, on the pattern `{{0}0}/{1}/{2}`, rewritten to `{%[2]d0}/%[3]d/%[4]d`. -/
theorem rewritten_pattern_slots_witness :
    (∃ tps, (toOverlays (E := GoString) [nestedPattern]).1 = some tps ∧ tps.length = 1
      ∧ ∀ (i : Nat) (h₂ : i < tps.length),
        ¬ Occurs (lit "\x7b0\x7d") (tps.get ⟨i, h₂⟩).URLPattern
          ∧ ¬ Occurs (lit "\x7b1\x7d") (tps.get ⟨i, h₂⟩).URLPattern
          ∧ ¬ Occurs (lit "\x7b2\x7d") (tps.get ⟨i, h₂⟩).URLPattern
          ∧ Occurs (lit "%[2]d") (tps.get ⟨i, h₂⟩).URLPattern
          ∧ Occurs (lit "%[3]d") (tps.get ⟨i, h₂⟩).URLPattern
          ∧ Occurs (lit "%[4]d") (tps.get ⟨i, h₂⟩).URLPattern)
      ∧ Replace rewritePairs nestedPattern = lit "\x7b%[2]d0\x7d/%[3]d/%[4]d" :=
  ⟨rewritten_pattern_slots (E := GoString) [nestedPattern] (by decide), by decide⟩

end Rewriting

/-! ## Marker strings are unambiguous without `|` in size and color -/

section MarkerStrings

theorem lit_bar : lit "|" = [124] := by decide

theorem lit_size : lit "size:" = [115, 105, 122, 101, 58] := by decide

theorem lit_color : lit "color:" = [99, 111, 108, 111, 114, 58] := by decide

theorem not_bar_of_isDigit (b : Byte) (h : isDigit b = true) : b ≠ 124 := by
  intro hb
  rw [hb] at h
  exact absurd h (by decide)

/-- The verb `%f` never prints `|`. -/
theorem fmtF_no_bar (x : float64) : (124 : Byte) ∉ fmtF x := by
  unfold fmtF
  split
  · split
    · decide
    · split <;> decide
  · intro h
    simp only [List.mem_append] at h
    rcases h with ((h | h) | h) | h
    · cases x.sign <;> simp [lit_minus] at h
    · exact not_bar_of_isDigit _ (decDigits_digits _ _ h) rfl
    · simp [lit_dot] at h
    · exact not_bar_of_isDigit _ (fixedDigits_digits _ _ _ h) rfl

/-- The coordinate string never contains `|`. -/
theorem postMapPoint_String_no_bar (p : postMapPoint) : (124 : Byte) ∉ p.String := by
  intro h
  simp only [postMapPoint.String, List.mem_append, lit_comma, List.mem_singleton] at h
  rcases h with (h | h) | h
  · exact fmtF_no_bar _ h
  · exact absurd h (by decide)
  · exact fmtF_no_bar _ h

/-- Two strings cut at their first `|` have equal parts. -/
theorem append_bar_inj (a a' b b' : GoString) (ha : (124 : Byte) ∉ a)
    (ha' : (124 : Byte) ∉ a') (h : a ++ 124 :: b = a' ++ 124 :: b') : a = a' ∧ b = b' := by
  induction a generalizing a' with
  | nil =>
    cases a' with
    | nil => simpa using h
    | cons y a' =>
      simp only [List.nil_append, List.cons_append, List.cons.injEq] at h
      exact absurd (List.mem_cons.2 (Or.inl h.1)) ha'
  | cons x a ih =>
    cases a' with
    | nil =>
      simp only [List.nil_append, List.cons_append, List.cons.injEq] at h
      exact absurd (List.mem_cons.2 (Or.inl h.1.symm)) ha
    | cons y a' =>
      simp only [List.cons_append, List.cons.injEq] at h
      obtain ⟨h1, h2⟩ := ih a' (fun hm => ha (List.mem_cons_of_mem _ hm))
        (fun hm => ha' (List.mem_cons_of_mem _ hm)) h.2
      exact ⟨by rw [h.1, h1], h2⟩

/-- The join with `|` of segments without `|` determines the segments. -/
theorem Join_bar_injective (l l' : List GoString) (hl : l ≠ []) (hl' : l' ≠ [])
    (hb : ∀ a ∈ l, (124 : Byte) ∉ a) (hb' : ∀ a ∈ l', (124 : Byte) ∉ a)
    (h : Join l (lit "|") = Join l' (lit "|")) : l = l' := by
  induction l generalizing l' with
  | nil => exact absurd rfl hl
  | cons a t ih =>
    cases l' with
    | nil => exact absurd rfl hl'
    | cons a' t' =>
      have ha := hb a (List.mem_cons_self _ _)
      have ha' := hb' a' (List.mem_cons_self _ _)
      cases t with
      | nil =>
        cases t' with
        | nil => simpa [Join] using h
        | cons b' r' =>
          simp only [Join, lit_bar, List.append_assoc, List.singleton_append] at h
          rw [h] at ha
          exact absurd (by simp) ha
      | cons b r =>
        cases t' with
        | nil =>
          simp only [Join, lit_bar, List.append_assoc, List.singleton_append] at h
          rw [← h] at ha'
          exact absurd (by simp) ha'
        | cons b' r' =>
          simp only [Join, lit_bar, List.append_assoc, List.singleton_append] at h
          obtain ⟨h1, h2⟩ := append_bar_inj _ _ _ _ ha ha' h
          have := ih (b' :: r') (by simp) (by simp)
            (fun x hx => hb x (List.mem_cons_of_mem _ hx))
            (fun x hx => hb' x (List.mem_cons_of_mem _ hx)) (by simpa [lit_bar] using h2)
          rw [h1, this]

/-- The spec string as the join of its segments. -/
theorem String_eq_Join (m : postMapMarker) :
    m.String = Join ((if m.Size = [] then [] else [lit "size:" ++ m.Size])
      ++ (if m.Color = [] then [] else [lit "color:" ++ m.Color])
      ++ [m.Coord.String]) (lit "|") := by
  by_cases hs : m.Size = [] <;> by_cases hc : m.Color = [] <;>
    simp [postMapMarker.String, hs, hc]

/-- The segments of a marker without `|` in size and color hold no `|`. -/
theorem segments_no_bar (m : postMapMarker) (hs : (124 : Byte) ∉ m.Size)
    (hc : (124 : Byte) ∉ m.Color) :
    ∀ a ∈ (if m.Size = [] then [] else [lit "size:" ++ m.Size])
      ++ (if m.Color = [] then [] else [lit "color:" ++ m.Color])
      ++ [m.Coord.String], (124 : Byte) ∉ a := by
  intro a ha
  simp only [List.mem_append, List.mem_singleton] at ha
  rcases ha with (ha | ha) | ha
  · by_cases hsz : m.Size = []
    · simp [hsz] at ha
    · simp only [hsz, if_false, List.mem_singleton] at ha
      subst ha
      simp [lit_size, hs]
  · by_cases hcl : m.Color = []
    · simp [hcl] at ha
    · simp only [hcl, if_false, List.mem_singleton] at ha
      subst ha
      simp [lit_color, hc]
  · subst ha
    exact postMapPoint_String_no_bar _

/-- C18: on markers whose size and color contain no `|`, equal spec strings
force equal sizes, equal colors and equal coordinate strings (a coordinate
string never contains `|`); without the restriction the markers with size
`a|color:b` and no color, and with size `a` and color `b`, at the same point
have the same spec string. -/
theorem postMapMarker_String_injective :
    (∀ m m' : postMapMarker, (124 : Byte) ∉ m.Size → (124 : Byte) ∉ m.Color →
        (124 : Byte) ∉ m'.Size → (124 : Byte) ∉ m'.Color → m.String = m'.String →
        m.Size = m'.Size ∧ m.Color = m'.Color ∧ m.Coord.String = m'.Coord.String)
      ∧ (∀ p : postMapPoint, (124 : Byte) ∉ p.String)
      ∧ (⟨lit "a|color:b", [], ⟨f1, f2⟩⟩ : postMapMarker).String
          = (⟨lit "a", lit "b", ⟨f1, f2⟩⟩ : postMapMarker).String
      ∧ (⟨lit "a|color:b", [], ⟨f1, f2⟩⟩ : postMapMarker).Size
          ≠ (⟨lit "a", lit "b", ⟨f1, f2⟩⟩ : postMapMarker).Size := by
  refine ⟨?_, postMapPoint_String_no_bar, by decide, by decide⟩
  intro m m' hs hc hs' hc' h
  rw [String_eq_Join m, String_eq_Join m'] at h
  have hl := Join_bar_injective _ _ (by simp) (by simp) (segments_no_bar m hs hc)
    (segments_no_bar m' hs' hc') h
  by_cases e1 : m.Size = [] <;> by_cases e2 : m.Color = [] <;>
    by_cases e3 : m'.Size = [] <;> by_cases e4 : m'.Color = [] <;>
    simp [e1, e2, e3, e4, lit_size, lit_color] at hl <;>
    simp [e1, e2, e3, e4, hl]

/-- C18, on two markers with size `mid` and color `red` whose latitudes
`1.0` and the next float64 above it print alike: their spec strings are equal
and so are sizes, colors and coordinate strings. -/
theorem postMapMarker_String_injective_witness :
    (⟨lit "mid", lit "red", ⟨f1, f2⟩⟩ : postMapMarker).String
        = (⟨lit "mid", lit "red", ⟨f1next, f2⟩⟩ : postMapMarker).String
      ∧ (⟨f1, f2⟩ : postMapPoint).String = (⟨f1next, f2⟩ : postMapPoint).String
      ∧ f1 ≠ f1next :=
  ⟨by decide,
    (postMapMarker_String_injective.1 ⟨lit "mid", lit "red", ⟨f1, f2⟩⟩
      ⟨lit "mid", lit "red", ⟨f1next, f2⟩⟩ (by decide) (by decide) (by decide) (by decide)
      (by decide)).2.2,
    by decide⟩

end MarkerStrings

/-! ## The color error -/

section ColorError

variable {M E X : Type}

/-- An error of `toPaths` wraps no error, whatever the parser's errors are. -/
theorem toPaths_error_Unwrap (D : Deps M E X) (V : ErrorView E) (ps : List postMapPath)
    (e : GoError E) (h : (toPaths D ps).2 = some e) : e.Unwrap V = none := by
  obtain ⟨c, x, hx⟩ := toPathsLoop_error D ps [] e h
  rw [hx]
  rfl

/-- The message of the color error. -/
theorem color_error_message (V : ErrorView E) (c : GoString) (x : E) :
    (GoError.errorf "bad color name %q: %w" [FmtArg.str c, FmtArg.err x]).Error V
      = lit "bad color name " ++ V.Quote c ++ lit ": %!w(" ++ V.typeString x ++ lit "="
        ++ V.plainValue x ++ lit ")" := by
  simp [GoError.Error, Sprintf, fmtVerb, lit]

/-- C13 fails on the code: for the path with color `not-a-color` the error of
`toPaths` is the value built by `errors.Errorf` of `github.com/pkg/errors`,
whose message names the color in quoted form and renders the verb `%w` as a
bad verb; the error wraps nothing, so the parser's error is not its cause. -/
theorem color_error_not_wrapped :
    ∃ e, (toPaths sampleDeps [badPath]).2 = some e
      ∧ e.Error sampleView
        = lit ("bad color name \x22not-a-color\x22: "
          ++ "%!w(*errors.errorString=&\x7bcannot parse color string\x7d)")
      ∧ Occurs (lit "\x22not-a-color\x22") (e.Error sampleView)
      ∧ e.Unwrap sampleView = none
      ∧ e ≠ GoError.ext (lit "cannot parse color string") :=
  ⟨GoError.errorf "bad color name %q: %w"
      [FmtArg.str (lit "not-a-color"), FmtArg.err (lit "cannot parse color string")],
    by decide, by decide, (Contains_iff _ _).1 (by decide), rfl, by decide⟩

end ColorError

end Staticmap
